import Mathlib

/-! qri p2p: peer resolution, closest peers and reputation enforcement.

A shallow embedding of `p2p/peers.go` and of the parts of `p2p/node.go` it uses.

Conventions of the embedding

* `peer.ID`, `profile.ID` and `ma.Multiaddr` are Go strings / opaque values:
  they are `String` here, so `len(x) > 0` is `0 < x.length`.
* A Go `error` is the message it carries; `nil` is `none`.
* A Go `int` is a 64 bit two's complement integer: sums are wrapped by `wrapInt`.
* The transport host, the peerstore, the profile store, the registry client and
  the routing service are external collaborators.  Their mutable part (cached
  scores, open connections) lives in `World`; what they answer is a field of
  `QriNode`.  Every call on a collaborator appends one `Event` to `World.log`,
  in call order, so that "no lookup was issued" is a statement about the log.
* The host is assumed present (`n.Host != nil`) in the functions that
  dereference it without a check.
* `handleStream` is the sequence of its steps on one stream.  Goroutines it
  starts are recorded where they are started; what a handler does with the
  stream is the handler's business and is not part of the sequence.
-/

namespace Qri
namespace P2P

/-! ## Data model -/

/-- Go type `peer.ID`. -/
abbrev PeerID := String

/-- Go type `profile.ID`. -/
abbrev ProfileID := String

/-- Go type `ma.Multiaddr`. -/
abbrev Multiaddr := String

/-- The message of a Go `error`. -/
abbrev GoError := String

/-- Go type `pstore.PeerInfo`. -/
structure PeerInfo where
  ID : PeerID
  Addrs : List Multiaddr
deriving DecidableEq, Repr

/-- The zero value `pstore.PeerInfo{}`. -/
def PeerInfo.zero : PeerInfo := ⟨"", []⟩

/-- An open connection of the host (`net.Conn`): an identity and its two ends. -/
structure Conn where
  connID : Nat
  LocalPeer : PeerID
  RemotePeer : PeerID
deriving DecidableEq, Repr

/-- The fields of `profile.Profile` read by `p2p/peers.go`. -/
structure Profile where
  ID : ProfileID
  PeerIDs : List PeerID
deriving DecidableEq, Repr

/-- Go struct `PeerConnectionParams`; a nil `Multiaddr` is `none`. -/
structure PeerConnectionParams where
  Peername : String
  ProfileID : String
  PeerID : String
  Multiaddr : Option String
deriving DecidableEq, Repr

/-- Go struct `config.Registry`, the field that is read. -/
structure Registry where
  Location : String
deriving DecidableEq, Repr

/-- One call on an external collaborator. -/
inductive Event where
  /-- The call `n.Host.Peerstore().Get(pid, qriReputationKey)`. -/
  | peerstoreGet (pid : PeerID)
  /-- The call `n.TagReputation(pid, rep)`. -/
  | tagReputation (pid : PeerID) (rep : Int)
  /-- The call `client.GetReputation(id)` on the registry at `loc`. -/
  | getReputation (loc : String) (id : ProfileID)
  /-- The call `n.Host.Network().Conns()`. -/
  | conns
  /-- The call `n.Host.Network().ConnsToPeer(pid)`. -/
  | connsToPeer (pid : PeerID)
  /-- The call `conn.Close()`. -/
  | connClose (c : Conn)
  /-- The call `n.Repo.Profiles().PeernameID(name)`. -/
  | peernameID (name : String)
  /-- The call `n.Repo.Profiles().PeerIDs(id)`. -/
  | peerIDs (id : ProfileID)
  /-- The call `n.Host.Peerstore().PeerInfo(pid)`. -/
  | peerInfo (pid : PeerID)
  /-- The call `ipfsnode.Routing.FindPeer(ctx, pid)`. -/
  | findPeer (pid : PeerID)
deriving DecidableEq, Repr

/-- The mutable state the functions act on, and the record of the calls made. -/
structure World where
  /-- Peerstore values stored under `qriReputationKey`; `none` is `ErrNotFound`. -/
  scores : PeerID → Option Int
  /-- The open connections of the host, in the order `Conns()` lists them. -/
  conns : List Conn
  /-- The calls made so far, oldest first. -/
  log : List Event

/-- The node: the fields of `QriNode` that are read, the package constant
`qriBaselineReputation` (declared outside the files at hand, hence a parameter),
and the answers of the external collaborators. -/
structure QriNode where
  Online : Bool
  registryConfig : Option Registry
  /-- Package constant `qriBaselineReputation`. -/
  qriBaselineReputation : Int
  /-- A failure of `Peerstore().Get` other than `ErrNotFound`. -/
  peerstoreGetErr : PeerID → Option GoError
  /-- A failure of `TagReputation`. -/
  tagErr : PeerID → Int → Option GoError
  /-- The answer of the registry: `reputation.Reputation()` or the error. -/
  getReputation : String → ProfileID → Except GoError Int
  /-- A failure of `conn.Close()`. -/
  closeErr : Conn → Option GoError
  /-- The answer of `Repo.Profiles().PeernameID`. -/
  peernameID : String → ProfileID × Option GoError
  /-- The answer of `Repo.Profiles().PeerIDs`. -/
  peerIDs : ProfileID → List PeerID × Option GoError
  /-- The answer of `Host.Peerstore().PeerInfo`. -/
  peerstorePeerInfo : PeerID → PeerInfo
  /-- Whether `n.Repo.Store()` is an `*ipfs_filestore.Filestore`. -/
  storeIsIPFS : Bool
  /-- The answer of `ipfsnode.Routing.FindPeer`. -/
  findPeer : PeerID → PeerInfo × Option GoError
  /-- Helper `toPeerInfos`, declared outside the files at hand. -/
  toPeerInfos : List Multiaddr → List PeerInfo
  /-- Whether `n.Host == nil`; read by the functions that test it. -/
  hostIsNil : Bool := false

/-- Append one call to the log. -/
def World.emit (w : World) (e : Event) : World :=
  { w with log := w.log ++ [e] }

/-- The calls made between the earlier world `w₀` and `w`. -/
def World.since (w w₀ : World) : List Event :=
  w.log.drop w₀.log.length

/-- Two's complement reduction of an integer to a Go `int` (64 bits). -/
def wrapInt (x : Int) : Int :=
  (x + 2 ^ 63) % 2 ^ 64 - 2 ^ 63

/-- Go `a + b` on `int`. -/
def addInt (a b : Int) : Int :=
  wrapInt (a + b)

/-! ## node.go -/

/-- Go method `QriNode.RegistryLocation`. -/
def RegistryLocation (n : QriNode) : String :=
  match n.registryConfig with
  | none => ""
  | some r => r.Location

/-- Go method `QriNode.IPFSNode`, reduced to its error. -/
def IPFSNode (n : QriNode) : Option GoError :=
  if n.storeIsIPFS then none else some "not using IPFS"

/-! ## peers.go: reputation -/

/-- Modelled from the spec: `TagReputation` is declared outside the files at
hand.  The spec has it "write the baseline score" and "persist the updated
score": the score of `pid` in the tag store becomes `rep`, unless the call
fails. -/
def TagReputation (n : QriNode) (w : World) (pid : PeerID) (rep : Int) :
    Option GoError × World :=
  let w₁ := w.emit (.tagReputation pid rep)
  match n.tagErr pid rep with
  | some e => (some e, w₁)
  | none => (none, { w₁ with scores := Function.update w₁.scores pid (some rep) })

/-- The loop of `DisconnectFromPeer`: close each connection, stop at the first
failure.  A connection that closed is no longer open. -/
def closeConns (n : QriNode) : World → List Conn → Option GoError × World
  | w, [] => (none, w)
  | w, c :: cs =>
    match n.closeErr c with
    | some e => (some e, w.emit (.connClose c))
    | none =>
      closeConns n { w.emit (.connClose c) with conns := w.conns.filter (fun x => x ≠ c) } cs

/-- Go method `QriNode.DisconnectFromPeer`. -/
def DisconnectFromPeer (n : QriNode) (w : World) (pid : PeerID) : Option GoError × World :=
  closeConns n (w.emit (.connsToPeer pid)) (w.conns.filter (fun c => c.RemotePeer = pid))

/-- The loop of `DisconnectFromProfile`. -/
def disconnectPeers (n : QriNode) : World → List PeerID → Option GoError × World
  | w, [] => (none, w)
  | w, pid :: pids =>
    match DisconnectFromPeer n w pid with
    | (some e, w₁) => (some e, w₁)
    | (none, w₁) => disconnectPeers n w₁ pids

/-- Go method `QriNode.DisconnectFromProfile`. -/
def DisconnectFromProfile (n : QriNode) (w : World) (profile : Profile) :
    Option GoError × World :=
  disconnectPeers n w profile.PeerIDs

/-- The locals of `checkReputation` that its first loop maintains. -/
structure Scan where
  reps : List Int
  disconnect : Bool
  checked : Bool
deriving DecidableEq, Repr

/-- The tail of one iteration of the first loop, once `rep` is known. -/
def Scan.step (n : QriNode) (s : Scan) (rep : Int) : Scan :=
  { reps := s.reps ++ [rep]
    disconnect := if rep < 0 then true else s.disconnect
    checked := if rep = n.qriBaselineReputation then false else s.checked }

/-- The first loop of `checkReputation` (lines 130 to 153). -/
def scanReputations (n : QriNode) : World → Scan → List PeerID → Except GoError Scan × World
  | w, s, [] => (.ok s, w)
  | w, s, pid :: pids =>
    match n.peerstoreGetErr pid with
    | some e =>
      (.error ("error getting peer's reputation from the peerstore: " ++ e),
        w.emit (.peerstoreGet pid))
    | none =>
      match w.scores pid with
      | none =>
        match TagReputation n (w.emit (.peerstoreGet pid)) pid n.qriBaselineReputation with
        | (some e, w₁) => (.error ("error tagging connection: " ++ e), w₁)
        | (none, w₁) => scanReputations n w₁ (s.step n n.qriBaselineReputation) pids
      | some v => scanReputations n (w.emit (.peerstoreGet pid)) (s.step n v) pids

/-- The second loop of `checkReputation` (lines 179 to 189), over the pairs
`(pids[i], reps[i])`; the flag is `disconnect`. -/
def applyReputation (n : QriNode) (rep : Int) :
    World → Bool → List (PeerID × Int) → Except GoError Bool × World
  | w, d, [] => (.ok d, w)
  | w, d, (pid, r) :: rest =>
    match TagReputation n w pid (addInt r rep) with
    | (some e, w₁) => (.error ("error tagging connection: " ++ e), w₁)
    | (none, w₁) =>
      applyReputation n rep w₁ (if addInt r rep < 0 then true else d) rest

/-- Go method `QriNode.checkReputation`. -/
def checkReputation (n : QriNode) (w : World) (profile : Profile) : Option GoError × World :=
  match scanReputations n w ⟨[], false, true⟩ profile.PeerIDs with
  | (.error e, w₁) => (some e, w₁)
  | (.ok s, w₁) =>
    if s.checked then
      if s.disconnect then
        (none, (DisconnectFromProfile n w₁ profile).2)
      else
        (none, w₁)
    else
      if RegistryLocation n = "" then
        (some "check reputation: no registry provided", w₁)
      else
        match n.getReputation (RegistryLocation n) profile.ID with
        | .error e => (some e, w₁.emit (.getReputation (RegistryLocation n) profile.ID))
        | .ok rep =>
          match applyReputation n rep (w₁.emit (.getReputation (RegistryLocation n) profile.ID))
              s.disconnect (profile.PeerIDs.zip s.reps) with
          | (.error e, w₂) => (some e, w₂)
          | (.ok d, w₂) =>
            if d then (none, (DisconnectFromProfile n w₂ profile).2) else (none, w₂)

/-! ## peers.go: closest connected peers -/

/-- The first loop of `ClosestConnectedPeers` (lines 69 to 74): `pid` and
`added` are the locals of the same name. -/
def collectConnected : World → List PeerID → Int → List PeerID → (List PeerID × Int) × World
  | w, pid, added, [] => ((pid, added), w)
  | w, pid, added, id :: ids =>
    if 0 < (w.conns.filter (fun c => c.RemotePeer = id)).length then
      collectConnected (w.emit (.connsToPeer id)) (pid ++ [id]) (added + 1) ids
    else
      collectConnected (w.emit (.connsToPeer id)) pid added ids

/-- The second loop of `ClosestConnectedPeers` (lines 78 to 84). -/
def fillFromConns (max : Int) : List PeerID → Int → List Conn → List PeerID
  | pid, _, [] => pid
  | pid, added, c :: cs =>
    if added + 1 = max then pid ++ [c.RemotePeer]
    else fillFromConns max (pid ++ [c.RemotePeer]) (added + 1) cs

/-- Go method `QriNode.ClosestConnectedPeers`. -/
def ClosestConnectedPeers (n : QriNode) (w : World) (id : ProfileID) (max : Int) :
    List PeerID × World :=
  if n.Online = false then ([], w)
  else
    match n.peerIDs id with
    | (ids, none) =>
      match collectConnected (w.emit (.peerIDs id)) [] 0 ids with
      | ((pid, added), w₁) =>
        if pid.length = 0 then (fillFromConns max pid added w₁.conns, w₁.emit .conns)
        else (pid, w₁)
    | (_, some _) =>
      (fillFromConns max [] 0 w.conns, (w.emit (.peerIDs id)).emit .conns)

/-! ## peers.go: resolving connection parameters -/

/-- Go method `QriNode.getPeerInfo`. -/
def getPeerInfo (n : QriNode) (w : World) (pid : PeerID) : (PeerInfo × Option GoError) × World :=
  if 0 < (n.peerstorePeerInfo pid).ID.length then
    ((n.peerstorePeerInfo pid, none), w.emit (.peerInfo pid))
  else
    match IPFSNode n with
    | some e => ((PeerInfo.zero, some e), w.emit (.peerInfo pid))
    | none => (n.findPeer pid, (w.emit (.peerInfo pid)).emit (.findPeer pid))

/-- Lines 333 to 343 of `peerConnectionParamsToPeerInfo`: from the profile
identifier `proID` to a descriptor. -/
def resolveProfileID (n : QriNode) (w : World) (proID : ProfileID) :
    (PeerInfo × Option GoError) × World :=
  match n.peerIDs proID with
  | (_, some e) => ((PeerInfo.zero, some e), w.emit (.peerIDs proID))
  | ([], none) =>
    ((PeerInfo.zero, some ("no network info for " ++ proID)), w.emit (.peerIDs proID))
  | (id :: _, none) => getPeerInfo n (w.emit (.peerIDs proID)) id

/-- Go method `QriNode.peerConnectionParamsToPeerInfo`.  The outer `none` is the
run-time panic of `toPeerInfos(...)[0]` on an empty slice. -/
def peerConnectionParamsToPeerInfo (n : QriNode) (w : World) (p : PeerConnectionParams) :
    Option (PeerInfo × Option GoError) × World :=
  match p.Multiaddr with
  | some m =>
    match n.toPeerInfos [m] with
    | [] => (none, w)
    | pi :: _ => (some (pi, none), w)
  | none =>
    if 0 < p.PeerID.length then
      (some (getPeerInfo n w p.PeerID).1, (getPeerInfo n w p.PeerID).2)
    else if p.ProfileID.length = 0 ∧ p.Peername ≠ "" then
      match n.peernameID p.Peername with
      | (_, some e) => (some (PeerInfo.zero, some e), w.emit (.peernameID p.Peername))
      | (proID, none) =>
        (some (resolveProfileID n (w.emit (.peernameID p.Peername)) proID).1,
          (resolveProfileID n (w.emit (.peernameID p.Peername)) proID).2)
    else
      (some (resolveProfileID n w p.ProfileID).1, (resolveProfileID n w p.ProfileID).2)

/-! ## peers.go: connected peers and peer differences -/

/-- The loop of `Peers` (lines 229 to 237): `seen` is the Go map of that name, by
its key set, and `peers` the slice being built. -/
def peersLoop : (PeerID → Bool) → List PeerID → List Conn → List PeerID
  | _, peers, [] => peers
  | seen, peers, c :: cs =>
    if seen c.LocalPeer = true then peersLoop seen peers cs
    else peersLoop (Function.update seen c.LocalPeer true) (peers ++ [c.LocalPeer]) cs

/-- Go method `QriNode.Peers`. -/
def Peers (n : QriNode) (w : World) : List PeerID × World :=
  if n.hostIsNil = true then ([], w)
  else (peersLoop (fun _ => false) [] w.conns, w.emit .conns)

/-- The first loop of `peerDifference` (lines 93 to 95): the map `m`, by the value
stored under each key. -/
def markPeers : (PeerID → Option Bool) → List PeerID → PeerID → Option Bool
  | m, [] => m
  | m, bid :: b => markPeers (Function.update m bid (some true)) b

/-- The second loop of `peerDifference` (lines 97 to 101). -/
def collectUnmarked (m : PeerID → Option Bool) : List PeerID → List PeerID → List PeerID
  | diff, [] => diff
  | diff, aid :: a =>
    if (m aid).isSome = true then collectUnmarked m diff a
    else collectUnmarked m (diff ++ [aid]) a

/-- Go function `peerDifference`. -/
def peerDifference (a b : List PeerID) : List PeerID :=
  collectUnmarked (markPeers (fun _ => none) b) [] a

/-! ## node.go: the receive loop -/

/-- Go type `MsgType`. -/
abbrev MsgType := String

/-- Modelled from the spec: the struct `Message` is declared outside the files at
hand.  The spec has it carry a message type, an opaque payload and "a terminal
flag indicating the sender intends to close the stream after this message",
which the doc comment of `handleStream` calls `Message.HangUp`. -/
structure Message where
  type : MsgType
  payload : String
  HangUp : Bool
deriving DecidableEq, Repr

/-- What one call of `ws.receiveMessage()` returns: a message or an error. -/
inductive Inbound where
  | msg (m : Message)
  | err (e : GoError)
deriving DecidableEq, Repr

/-- Go type `HandlerFunc`.  The handlers are declared outside the files at hand:
a handler is a parameter, any function from the state `σ` it works on and the
message to its `hangup` result and the state it leaves. -/
abbrev HandlerFunc (σ : Type) := σ → Message → Bool × σ

/-- One step of `handleStream` that is visible from outside. -/
inductive StreamEvent where
  /-- The call `ws.receiveMessage()` returned the message. -/
  | received (m : Message)
  /-- The call `ws.receiveMessage()` returned the error. -/
  | receiveFailed (e : GoError)
  /-- The goroutine `replies <- msg` was started. -/
  | reply (m : Message)
  /-- The goroutine `n.msgChan <- msg` was started. -/
  | broadcast (m : Message)
  /-- The handler of the type of `m` was invoked and returned `hangup`. -/
  | handle (m : Message) (hangup : Bool)
  /-- The call `ws.stream.Close()` after the loop. -/
  | close
deriving DecidableEq, Repr

/-- Lines 368 to 373 of `handleStream`: the message is passed on to `replies`, when
that channel is not nil, and to `n.msgChan`. -/
def forwardMessage (replies : Bool) (m : Message) : List StreamEvent :=
  if replies = true then [.reply m, .broadcast m] else [.broadcast m]

/-- Go method `QriNode.handleStream`, as the sequence of its steps.  `handlers` is
the dispatch table `n.handlers`, `replies` tells whether the channel of that name
is not nil, and the list is what the successive calls of `ws.receiveMessage()`
return; once the list is used up the stream has ended and the call returns the
error `EOF`. -/
def handleStream {σ : Type} (handlers : MsgType → Option (HandlerFunc σ)) (replies : Bool) :
    σ → List Inbound → List StreamEvent
  | _, [] => [.receiveFailed "EOF", .close]
  | _, .err e :: _ => [.receiveFailed e, .close]
  | st, .msg m :: rest =>
    .received m :: (forwardMessage replies m ++
      match handlers m.type with
      | none => [.close]
      | some handler =>
        if (handler st m).1 = true then [.handle m true, .close]
        else .handle m false :: handleStream handlers replies (handler st m).2 rest)

/-! ## Vocabulary of the statements -/

/-- Calls that read or write a cached score. -/
def Event.isScore : Event → Bool
  | .peerstoreGet _ => true
  | .tagReputation _ _ => true
  | _ => false

/-- Calls made while disconnecting: listing and closing connections. -/
def Event.isDisconnect : Event → Bool
  | .connsToPeer _ => true
  | .connClose _ => true
  | _ => false

/-- The score `checkReputation` reads for `pid`: the cached one, or the baseline. -/
def readRep (n : QriNode) (w : World) (pid : PeerID) : Int :=
  (w.scores pid).getD n.qriBaselineReputation

/-- The locals after a scan in which no peerstore read and no baseline write fails. -/
def scanResult (n : QriNode) (w : World) (s : Scan) (pids : List PeerID) : Scan :=
  { reps := s.reps ++ pids.map (readRep n w)
    disconnect := s.disconnect || pids.any (fun p => decide (readRep n w p < 0))
    checked := s.checked && pids.all (fun p => decide (readRep n w p ≠ n.qriBaselineReputation)) }

/-- Replace the close behaviour of a node. -/
def QriNode.withCloseErr (n : QriNode) (ce : Conn → Option GoError) : QriNode :=
  { n with closeErr := ce }

/-! ## Example data -/

/-- A node with baseline 1 whose registry at `reg` answers `5`, whose
collaborators never fail, and whose profile store knows no one. -/
def exampleNode : QriNode :=
  { Online := true
    registryConfig := some ⟨"reg"⟩
    qriBaselineReputation := 1
    peerstoreGetErr := fun _ => none
    tagErr := fun _ _ => none
    getReputation := fun _ _ => .ok 5
    closeErr := fun _ => none
    peernameID := fun _ => ("", some "profile: not found")
    peerIDs := fun _ => ([], none)
    peerstorePeerInfo := fun pid => ⟨pid, []⟩
    storeIsIPFS := true
    findPeer := fun pid => (⟨pid, ["/ip4/10.0.0.1/tcp/4001"]⟩, none)
    toPeerInfos := fun l => l.map (fun a => ⟨a, [a]⟩) }

/-- A world in which `a` has the cached score 7, nobody else has one, and the
host has one open connection to each of `a`, `b` and `z`. -/
def exampleWorld : World :=
  { scores := fun pid => if pid = "a" then some 7 else none
    conns := [⟨0, "me", "a"⟩, ⟨1, "me", "b"⟩, ⟨2, "me", "z"⟩]
    log := [] }

/-- A profile with the two peer identifiers `a` and `b`. -/
def exampleProfile : Profile := ⟨"p", ["a", "b"]⟩

/-- A profile with the single peer identifier `a`. -/
def singleProfile : Profile := ⟨"p", ["a"]⟩

/-- A profile with the single peer identifier `b`. -/
def freshProfile : Profile := ⟨"q", ["b"]⟩

/-- The example node with a registry that answers `-3`. -/
def harshNode : QriNode := { exampleNode with getReputation := fun _ _ => .ok (-3) }

/-- The example node without a registry. -/
def noRegistryNode : QriNode := { exampleNode with registryConfig := none }

/-- The example node on which every `Close` fails. -/
def stuckNode : QriNode := { exampleNode with closeErr := fun _ => some "close failed" }

/-- A world in which `a` has the cached score -3 and one open connection. -/
def negativeWorld : World :=
  { scores := fun pid => if pid = "a" then some (-3) else none
    conns := [⟨0, "me", "a"⟩]
    log := [] }

/-- A node whose profile store knows the peername `alice` as profile `pa` with
the identifiers `a` and `b`, and the profile `pe` with no identifier; whose
peerstore has an entry for `a` only; and whose store is IPFS backed. -/
def knownNode : QriNode :=
  { exampleNode with
    peernameID := fun name => if name = "alice" then ("pa", none) else ("", some "profile: not found")
    peerIDs := fun id =>
      if id = "pa" then (["a", "b"], none)
      else if id = "pe" then ([], none)
      else ([], some "profile: not found")
    peerstorePeerInfo := fun pid => if pid = "a" then ⟨"a", ["/ip4/10.0.0.2/tcp/4001"]⟩ else ⟨"", []⟩ }

/-- A world in which the host has open connections to `b` and `z` only. -/
def farWorld : World :=
  { scores := fun _ => none
    conns := [⟨1, "me", "b"⟩, ⟨2, "me", "z"⟩]
    log := [] }

/-- The node `knownNode` with its `Online` flag off. -/
def offlineNode : QriNode := { knownNode with Online := false }

/-- The handler invocations of a run of `handleStream`, in order, each with the
`hangup` it returned. -/
def handledMessages : List StreamEvent → List (Message × Bool)
  | [] => []
  | .handle m hangup :: t => (m, hangup) :: handledMessages t
  | _ :: t => handledMessages t

/-- The messages a stream delivers: those before its first receive error. -/
def inboundMessages : List Inbound → List Message
  | [] => []
  | .err _ :: _ => []
  | .msg m :: rest => m :: inboundMessages rest

/-- A call of `ws.receiveMessage()`, whatever it returned. -/
def StreamEvent.isReceive : StreamEvent → Bool
  | .received _ => true
  | .receiveFailed _ => true
  | _ => false

/-- A dispatch table with the single key `ping`, whose handler never hangs up. -/
def pingHandlers : MsgType → Option (HandlerFunc Unit) :=
  fun t => if t = "ping" then some (fun st _ => (false, st)) else none

/-- A dispatch table with the single key `ping`, whose handler counts the
messages it is given and hangs up on the second. -/
def countingHandlers : MsgType → Option (HandlerFunc Nat) :=
  fun t => if t = "ping" then some (fun k _ => (decide (k = 1), k + 1)) else none

/-- The example node on which closing a connection to `a` fails and every other
close succeeds. -/
def flakyNode : QriNode :=
  { exampleNode with
    closeErr := fun c => if c.RemotePeer = "a" then some "close failed" else none }

/-- A world in which the host has two open connections to `a`. -/
def twinWorld : World :=
  { scores := fun _ => none
    conns := [⟨0, "me", "a"⟩, ⟨3, "me", "a"⟩]
    log := [] }

/-- The example node with a registry that answers `100`. -/
def generousNode : QriNode := { exampleNode with getReputation := fun _ _ => .ok 100 }

/-- A world like `exampleWorld` in which the cached score of `a` is -5. -/
def mixedWorld : World :=
  { exampleWorld with scores := fun pid => if pid = "a" then some (-5) else none }

/-! ## The log only grows -/

@[simp] theorem World.emit_scores (w : World) (e : Event) : (w.emit e).scores = w.scores := rfl

@[simp] theorem World.emit_conns (w : World) (e : Event) : (w.emit e).conns = w.conns := rfl

@[simp] theorem World.emit_log (w : World) (e : Event) : (w.emit e).log = w.log ++ [e] := rfl

theorem World.since_of_log {w w₀ : World} {es : List Event} (h : w.log = w₀.log ++ es) :
    w.since w₀ = es := by
  simp [World.since, h]

theorem TagReputation_log (n : QriNode) (w : World) (pid : PeerID) (rep : Int) :
    (TagReputation n w pid rep).2.log = w.log ++ [.tagReputation pid rep] := by
  unfold TagReputation
  cases n.tagErr pid rep <;> rfl

theorem TagReputation_conns (n : QriNode) (w : World) (pid : PeerID) (rep : Int) :
    (TagReputation n w pid rep).2.conns = w.conns := by
  unfold TagReputation
  cases n.tagErr pid rep <;> rfl

theorem closeConns_log (n : QriNode) (cs : List Conn) :
    ∀ w : World, ∃ es, (closeConns n w cs).2.log = w.log ++ es ∧
      ∀ e ∈ es, e.isDisconnect = true := by
  induction cs with
  | nil => intro w; exact ⟨[], by simp [closeConns]⟩
  | cons c cs ih =>
    intro w
    unfold closeConns
    cases hc : n.closeErr c with
    | some e => exact ⟨[.connClose c], by simp [Event.isDisconnect]⟩
    | none =>
      obtain ⟨es, hes, hall⟩ := ih { w.emit (.connClose c) with conns := w.conns.filter (fun x => x ≠ c) }
      refine ⟨.connClose c :: es, ?_, ?_⟩
      · simp only [hes]; simp
      · intro e he
        rcases List.mem_cons.1 he with rfl | he
        · rfl
        · exact hall e he

theorem closeConns_scores (n : QriNode) (cs : List Conn) :
    ∀ w : World, (closeConns n w cs).2.scores = w.scores := by
  induction cs with
  | nil => intro w; rfl
  | cons c cs ih =>
    intro w
    unfold closeConns
    cases hc : n.closeErr c with
    | some e => rfl
    | none => simp only [ih]; rfl

theorem disconnectPeers_log (n : QriNode) (pids : List PeerID) :
    ∀ w : World, ∃ es, (disconnectPeers n w pids).2.log = w.log ++ es ∧
      ∀ e ∈ es, e.isDisconnect = true := by
  induction pids with
  | nil => intro w; exact ⟨[], by simp [disconnectPeers]⟩
  | cons pid pids ih =>
    intro w
    unfold disconnectPeers
    obtain ⟨es₁, h₁, a₁⟩ := closeConns_log n (w.conns.filter (fun c => c.RemotePeer = pid))
      (w.emit (.connsToPeer pid))
    have h₁' : (DisconnectFromPeer n w pid).2.log = w.log ++ (.connsToPeer pid :: es₁) := by
      unfold DisconnectFromPeer; rw [h₁]; simp
    have a₁' : ∀ e ∈ Event.connsToPeer pid :: es₁, e.isDisconnect = true := by
      intro e he
      rcases List.mem_cons.1 he with rfl | he
      · rfl
      · exact a₁ e he
    rcases hd : DisconnectFromPeer n w pid with ⟨_ | e, w₁⟩
    · obtain ⟨es₂, h₂, a₂⟩ := ih w₁
      rw [hd] at h₁'
      refine ⟨(.connsToPeer pid :: es₁) ++ es₂, ?_, ?_⟩
      · simp only [h₂]; simp only [] at h₁'; rw [h₁']; simp
      · intro e he
        rcases List.mem_append.1 he with he | he
        · exact a₁' e he
        · exact a₂ e he
    · rw [hd] at h₁'
      exact ⟨_, h₁', a₁'⟩

theorem disconnectPeers_scores (n : QriNode) (pids : List PeerID) :
    ∀ w : World, (disconnectPeers n w pids).2.scores = w.scores := by
  induction pids with
  | nil => intro w; rfl
  | cons pid pids ih =>
    intro w
    unfold disconnectPeers
    have h₁ : (DisconnectFromPeer n w pid).2.scores = w.scores := by
      unfold DisconnectFromPeer; rw [closeConns_scores]; rfl
    rcases hd : DisconnectFromPeer n w pid with ⟨_ | e, w₁⟩
    · rw [hd] at h₁; simp only [ih]; exact h₁
    · rw [hd] at h₁; exact h₁

/-! ## The scan loop -/

theorem scanReputations_log (n : QriNode) (pids : List PeerID) :
    ∀ (w : World) (s : Scan), ∃ es, (scanReputations n w s pids).2.log = w.log ++ es ∧
      ∀ e ∈ es, e.isScore = true := by
  induction pids with
  | nil => intro w s; exact ⟨[], by simp [scanReputations]⟩
  | cons pid pids ih =>
    intro w s
    unfold scanReputations
    cases n.peerstoreGetErr pid with
    | some e => exact ⟨[.peerstoreGet pid], by simp [Event.isScore]⟩
    | none =>
      cases hs : w.scores pid with
      | some v =>
        obtain ⟨es, hes, hall⟩ := ih (w.emit (.peerstoreGet pid)) (s.step n v)
        refine ⟨.peerstoreGet pid :: es, by simp only [hes]; simp, ?_⟩
        intro e he
        rcases List.mem_cons.1 he with rfl | he
        · rfl
        · exact hall e he
      | none =>
        have hl := TagReputation_log n (w.emit (.peerstoreGet pid)) pid n.qriBaselineReputation
        rcases ht : TagReputation n (w.emit (.peerstoreGet pid)) pid n.qriBaselineReputation
          with ⟨_ | e, w₁⟩
        · rw [ht] at hl
          obtain ⟨es, hes, hall⟩ := ih w₁ (s.step n n.qriBaselineReputation)
          refine ⟨.peerstoreGet pid :: .tagReputation pid n.qriBaselineReputation :: es, ?_, ?_⟩
          · simp only [hes]; simp only [] at hl; rw [hl]; simp
          · intro e he
            rcases List.mem_cons.1 he with rfl | he
            · rfl
            · rcases List.mem_cons.1 he with rfl | he
              · rfl
              · exact hall e he
        · rw [ht] at hl
          refine ⟨[.peerstoreGet pid, .tagReputation pid n.qriBaselineReputation], ?_, ?_⟩
          · simp only [] at hl; rw [hl]; simp
          · simp [Event.isScore]

theorem scanReputations_conns (n : QriNode) (pids : List PeerID) :
    ∀ (w : World) (s : Scan), (scanReputations n w s pids).2.conns = w.conns := by
  induction pids with
  | nil => intro w s; rfl
  | cons pid pids ih =>
    intro w s
    unfold scanReputations
    cases n.peerstoreGetErr pid with
    | some e => rfl
    | none =>
      cases hs : w.scores pid with
      | some v => simp only [ih]; rfl
      | none =>
        have hc := TagReputation_conns n (w.emit (.peerstoreGet pid)) pid n.qriBaselineReputation
        rcases ht : TagReputation n (w.emit (.peerstoreGet pid)) pid n.qriBaselineReputation
          with ⟨_ | e, w₁⟩
        · rw [ht] at hc; simp only [ih]; exact hc
        · rw [ht] at hc; exact hc

/-- When every identifier scanned has a cached score off the baseline, the scan
writes nothing and leaves `checked` as it found it. -/
theorem scanReputations_all_cached (n : QriNode) (pids : List PeerID) :
    ∀ (w : World) (s : Scan),
      (∀ pid ∈ pids, ∃ v, w.scores pid = some v ∧ v ≠ n.qriBaselineReputation) →
      ∀ s₁, (scanReputations n w s pids).1 = .ok s₁ → s₁.checked = s.checked := by
  induction pids with
  | nil =>
    intro w s _ s₁ h
    simp only [scanReputations] at h
    cases h; rfl
  | cons pid pids ih =>
    intro w s hall s₁ h
    obtain ⟨v, hv, hne⟩ := hall pid (List.mem_cons_self _ _)
    unfold scanReputations at h
    cases hg : n.peerstoreGetErr pid with
    | some e => simp [hg] at h
    | none =>
      simp only [hg, hv] at h
      have := ih (w.emit (.peerstoreGet pid)) (s.step n v)
        (fun q hq => hall q (List.mem_cons_of_mem _ hq)) s₁ h
      rw [this]
      simp [Scan.step, hne]

theorem readRep_congr (n : QriNode) {w₁ w₂ : World} (h : ∀ p, readRep n w₁ p = readRep n w₂ p) :
    readRep n w₁ = readRep n w₂ :=
  funext h

theorem scanResult_congr (n : QriNode) {w₁ w₂ : World} (s : Scan) (pids : List PeerID)
    (h : ∀ p, readRep n w₁ p = readRep n w₂ p) :
    scanResult n w₁ s pids = scanResult n w₂ s pids := by
  unfold scanResult
  rw [readRep_congr n h]

theorem scanResult_cons (n : QriNode) (w : World) (s : Scan) (pid : PeerID)
    (pids : List PeerID) :
    scanResult n w (s.step n (readRep n w pid)) pids = scanResult n w s (pid :: pids) := by
  cases s with
  | mk reps d c =>
    simp only [scanResult, Scan.step, List.map_cons, List.any_cons, List.all_cons,
      Scan.mk.injEq]
    refine ⟨by simp, ?_, ?_⟩
    · by_cases hneg : readRep n w pid < 0 <;> cases d <;> simp [hneg]
    · by_cases hb : readRep n w pid = n.qriBaselineReputation <;> cases c <;> simp [hb]

theorem TagReputation_ok (n : QriNode) (w : World) (pid : PeerID) (rep : Int)
    (h : n.tagErr pid rep = none) :
    (TagReputation n w pid rep).1 = none ∧
      (TagReputation n w pid rep).2.scores = Function.update w.scores pid (some rep) := by
  simp [TagReputation, h]

theorem scanReputations_ok (n : QriNode) (pids : List PeerID) :
    ∀ (w : World) (s : Scan),
      (∀ pid ∈ pids, n.peerstoreGetErr pid = none) →
      (∀ pid ∈ pids, n.tagErr pid n.qriBaselineReputation = none) →
      (scanReputations n w s pids).1 = .ok (scanResult n w s pids) ∧
      ∀ p, (scanReputations n w s pids).2.scores p =
        if p ∈ pids then some (readRep n w p) else w.scores p := by
  induction pids with
  | nil =>
    intro w s _ _
    simp [scanReputations, scanResult]
  | cons pid pids ih =>
    intro w s hget htag
    have hg := hget pid (List.mem_cons_self _ _)
    have ht := htag pid (List.mem_cons_self _ _)
    have hget' : ∀ q ∈ pids, n.peerstoreGetErr q = none :=
      fun q hq => hget q (List.mem_cons_of_mem _ hq)
    have htag' : ∀ q ∈ pids, n.tagErr q n.qriBaselineReputation = none :=
      fun q hq => htag q (List.mem_cons_of_mem _ hq)
    -- the world and the score read once `pid` is processed
    have key : ∃ w₁, scanReputations n w s (pid :: pids) =
          scanReputations n w₁ (s.step n (readRep n w pid)) pids ∧
        (∀ q, readRep n w₁ q = readRep n w q) ∧
        (∀ q, w₁.scores q = if q = pid then some (readRep n w pid) else w.scores q) := by
      cases hs : w.scores pid with
      | some v =>
        refine ⟨w.emit (.peerstoreGet pid), ?_, fun q => rfl, ?_⟩
        · simp [scanReputations, hg, hs, readRep]
        · intro q
          by_cases hq : q = pid
          · subst hq; simp [readRep, hs]
          · simp [hq]
      | none =>
        obtain ⟨t₁, t₂⟩ := TagReputation_ok n (w.emit (.peerstoreGet pid)) pid
          n.qriBaselineReputation ht
        rcases hT : TagReputation n (w.emit (.peerstoreGet pid)) pid n.qriBaselineReputation
          with ⟨r, w₁⟩
        rw [hT] at t₁ t₂
        simp only [] at t₁ t₂
        subst t₁
        refine ⟨w₁, ?_, ?_, ?_⟩
        · simp [scanReputations, hg, hs, readRep, hT]
        · intro q
          by_cases hq : q = pid
          · subst hq; simp [readRep, hs, t₂]
          · simp [readRep, t₂, Function.update_noteq hq]
        · intro q
          by_cases hq : q = pid
          · subst hq; simp [readRep, hs, t₂]
          · simp [t₂, Function.update_noteq hq, hq]
    obtain ⟨w₁, hstep, hrd, hsc⟩ := key
    obtain ⟨h₁, h₂⟩ := ih w₁ (s.step n (readRep n w pid)) hget' htag'
    rw [hstep]
    refine ⟨?_, ?_⟩
    · rw [h₁, scanResult_congr n _ pids hrd, scanResult_cons]
    · intro p
      rw [h₂ p, hrd p, hsc p]
      by_cases hp : p = pid
      · subst hp
        by_cases hm : p ∈ pids <;> simp [hm]
      · by_cases hm : p ∈ pids <;> simp [hm, hp]

/-! ## The apply loop -/

theorem zip_map_self {α β : Type} (f : α → β) (l : List α) :
    l.zip (l.map f) = l.map (fun a => (a, f a)) := by
  induction l with
  | nil => rfl
  | cons a l ih => simp [ih]

theorem applyReputation_log (n : QriNode) (rep : Int) (l : List (PeerID × Int)) :
    ∀ (w : World) (d : Bool), ∃ es, (applyReputation n rep w d l).2.log = w.log ++ es ∧
      ∀ e ∈ es, e.isScore = true := by
  induction l with
  | nil => intro w d; exact ⟨[], by simp [applyReputation]⟩
  | cons a l ih =>
    intro w d
    obtain ⟨pid, r⟩ := a
    unfold applyReputation
    have hl := TagReputation_log n w pid (addInt r rep)
    rcases ht : TagReputation n w pid (addInt r rep) with ⟨_ | e, w₁⟩
    · rw [ht] at hl
      obtain ⟨es, hes, hall⟩ := ih w₁ (if addInt r rep < 0 then true else d)
      refine ⟨.tagReputation pid (addInt r rep) :: es, ?_, ?_⟩
      · simp only [hes]; simp only [] at hl; rw [hl]; simp
      · intro e he
        rcases List.mem_cons.1 he with rfl | he
        · rfl
        · exact hall e he
    · rw [ht] at hl
      exact ⟨[.tagReputation pid (addInt r rep)], hl, by simp [Event.isScore]⟩

theorem applyReputation_conns (n : QriNode) (rep : Int) (l : List (PeerID × Int)) :
    ∀ (w : World) (d : Bool), (applyReputation n rep w d l).2.conns = w.conns := by
  induction l with
  | nil => intro w d; rfl
  | cons a l ih =>
    intro w d
    obtain ⟨pid, r⟩ := a
    unfold applyReputation
    have hc := TagReputation_conns n w pid (addInt r rep)
    rcases ht : TagReputation n w pid (addInt r rep) with ⟨_ | e, w₁⟩
    · rw [ht] at hc; simp only [ih]; exact hc
    · rw [ht] at hc; exact hc

theorem applyReputation_ok (n : QriNode) (rep : Int) (f : PeerID → Int) (pids : List PeerID) :
    ∀ (w : World) (d : Bool),
      (∀ pid ∈ pids, n.tagErr pid (addInt (f pid) rep) = none) →
      (applyReputation n rep w d (pids.map (fun p => (p, f p)))).1 =
          .ok (d || pids.any (fun p => decide (addInt (f p) rep < 0))) ∧
      (∀ p, (applyReputation n rep w d (pids.map (fun p => (p, f p)))).2.scores p =
          if p ∈ pids then some (addInt (f p) rep) else w.scores p) ∧
      (applyReputation n rep w d (pids.map (fun p => (p, f p)))).2.log =
          w.log ++ pids.map (fun p => Event.tagReputation p (addInt (f p) rep)) := by
  induction pids with
  | nil => intro w d _; simp [applyReputation]
  | cons pid pids ih =>
    intro w d htag
    obtain ⟨t₁, t₂⟩ := TagReputation_ok n w pid (addInt (f pid) rep)
      (htag pid (List.mem_cons_self _ _))
    have t₃ := TagReputation_log n w pid (addInt (f pid) rep)
    rcases hT : TagReputation n w pid (addInt (f pid) rep) with ⟨r, w₁⟩
    rw [hT] at t₁ t₂ t₃
    simp only [] at t₁ t₂ t₃
    subst t₁
    obtain ⟨h₁, h₂, h₃⟩ := ih w₁ (if addInt (f pid) rep < 0 then true else d)
      (fun q hq => htag q (List.mem_cons_of_mem _ hq))
    simp only [List.map_cons, applyReputation, hT]
    refine ⟨?_, ?_, ?_⟩
    · rw [h₁]
      by_cases hneg : addInt (f pid) rep < 0 <;> cases d <;> simp [hneg]
    · intro p
      rw [h₂ p, t₂]
      by_cases hp : p = pid
      · subst hp
        by_cases hm : p ∈ pids <;> simp [hm]
      · by_cases hm : p ∈ pids <;> simp [hm, hp, Function.update_noteq hp]
    · rw [h₃, t₃]; simp

/-! ## Disconnecting when no close fails -/

theorem closeConns_ok (n : QriNode) (cs : List Conn) :
    ∀ w : World, (∀ c ∈ cs, n.closeErr c = none) →
      (closeConns n w cs).1 = none ∧
      (closeConns n w cs).2.conns = w.conns.filter (fun x => decide (x ∉ cs)) ∧
      (closeConns n w cs).2.log = w.log ++ cs.map Event.connClose := by
  induction cs with
  | nil => intro w _; simp [closeConns]
  | cons c cs ih =>
    intro w h
    obtain ⟨h₁, h₂, h₃⟩ := ih
      { w.emit (.connClose c) with conns := w.conns.filter (fun x => x ≠ c) }
      (fun x hx => h x (List.mem_cons_of_mem _ hx))
    simp only [closeConns, h c (List.mem_cons_self _ _)]
    refine ⟨h₁, ?_, ?_⟩
    · rw [h₂]
      simp only [List.filter_filter]
      congr 1
      funext x
      by_cases hx : x = c <;> simp [hx]
    · rw [h₃]; simp

theorem disconnectPeers_ok (n : QriNode) (pids : List PeerID) :
    ∀ w : World, (∀ c ∈ w.conns, n.closeErr c = none) →
      (disconnectPeers n w pids).1 = none ∧
      (disconnectPeers n w pids).2.conns =
        w.conns.filter (fun c => decide (c.RemotePeer ∉ pids)) ∧
      ∃ es, (disconnectPeers n w pids).2.log = w.log ++ es ∧
        ∀ c ∈ w.conns, c.RemotePeer ∈ pids → Event.connClose c ∈ es := by
  induction pids with
  | nil => intro w _; exact ⟨rfl, by simp [disconnectPeers], [], by simp [disconnectPeers]⟩
  | cons pid pids ih =>
    intro w h
    obtain ⟨c₁, c₂, c₃⟩ := closeConns_ok n (w.conns.filter (fun c => c.RemotePeer = pid))
      (w.emit (.connsToPeer pid)) (fun c hc => h c (List.mem_of_mem_filter hc))
    rcases hD : DisconnectFromPeer n w pid with ⟨r, w₁⟩
    have hD' : closeConns n (w.emit (.connsToPeer pid))
        (w.conns.filter (fun c => c.RemotePeer = pid)) = (r, w₁) := hD
    rw [hD'] at c₁ c₂ c₃
    simp only [] at c₁ c₂ c₃
    subst c₁
    have hconns : w₁.conns = w.conns.filter (fun c => decide (c.RemotePeer ≠ pid)) := by
      rw [c₂]
      simp only [World.emit_conns]
      apply List.filter_congr
      intro x hx
      by_cases hxp : x.RemotePeer = pid <;> simp [hxp, List.mem_filter, hx]
    obtain ⟨h₁, h₂, es, h₃, h₄⟩ := ih w₁ (fun c hc => h c (by
      rw [hconns] at hc; exact List.mem_of_mem_filter hc))
    simp only [disconnectPeers, hD]
    refine ⟨h₁, ?_, ?_⟩
    · rw [h₂, hconns, List.filter_filter]
      apply List.filter_congr
      intro x _
      by_cases hxp : x.RemotePeer = pid <;> simp [hxp]
    · refine ⟨Event.connsToPeer pid ::
        ((w.conns.filter (fun c => c.RemotePeer = pid)).map Event.connClose ++ es), ?_, ?_⟩
      · rw [h₃, c₃]; simp
      · intro c hc hmem
        by_cases hcp : c.RemotePeer = pid
        · refine List.mem_cons_of_mem _ (List.mem_append_left _ ?_)
          exact List.mem_map_of_mem _ (List.mem_filter.2 ⟨hc, by simp [hcp]⟩)
        · refine List.mem_cons_of_mem _ (List.mem_append_right _ ?_)
          refine h₄ c ?_ ?_
          · rw [hconns]; exact List.mem_filter.2 ⟨hc, by simp [hcp]⟩
          · rcases List.mem_cons.1 hmem with h' | h'
            · exact absurd h' hcp
            · exact h'

/-! ## checkReputation -/

theorem wrapInt_of_inRange (x : Int) (h₁ : -(2 ^ 63) ≤ x) (h₂ : x < 2 ^ 63) : wrapInt x = x := by
  unfold wrapInt
  norm_num at h₁ h₂ ⊢
  omega

/-- When the scan finds an identifier at the baseline and the registry answers
`d`, the check is the tagging of every identifier with its score plus `d`,
followed by the disconnect if some score read or written is negative. -/
theorem checkReputation_lookup_shape (n : QriNode) (w : World) (p : Profile) (d : Int)
    (hget : ∀ pid ∈ p.PeerIDs, n.peerstoreGetErr pid = none)
    (htag : ∀ pid ∈ p.PeerIDs, ∀ v, n.tagErr pid v = none)
    (hbase : ∃ pid ∈ p.PeerIDs, readRep n w pid = n.qriBaselineReputation)
    (hloc : RegistryLocation n ≠ "")
    (hreg : n.getReputation (RegistryLocation n) p.ID = .ok d) :
    ∃ w₂ : World,
      (∀ q, w₂.scores q =
        if q ∈ p.PeerIDs then some (addInt (readRep n w q) d) else w.scores q) ∧
      w₂.conns = w.conns ∧
      w₂.log = (scanReputations n w ⟨[], false, true⟩ p.PeerIDs).2.log ++
        Event.getReputation (RegistryLocation n) p.ID ::
          p.PeerIDs.map (fun q => Event.tagReputation q (addInt (readRep n w q) d)) ∧
      checkReputation n w p =
        if (p.PeerIDs.any (fun q => decide (readRep n w q < 0)) ||
            p.PeerIDs.any (fun q => decide (addInt (readRep n w q) d < 0))) = true
        then (none, (DisconnectFromProfile n w₂ p).2) else (none, w₂) := by
  obtain ⟨s₁, s₂⟩ := scanReputations_ok n p.PeerIDs w ⟨[], false, true⟩ hget
    (fun pid h => htag pid h _)
  have s₃ := scanReputations_conns n p.PeerIDs w ⟨[], false, true⟩
  rcases hS : scanReputations n w ⟨[], false, true⟩ p.PeerIDs with ⟨r, w₁⟩
  rw [hS] at s₁ s₂ s₃
  simp only [] at s₁ s₂ s₃
  subst s₁
  have hchecked : (scanResult n w ⟨[], false, true⟩ p.PeerIDs).checked = false := by
    obtain ⟨pid, hm, hb⟩ := hbase
    simp only [scanResult, Bool.true_and]
    rw [List.all_eq_false]
    exact ⟨pid, hm, by simp [hb]⟩
  have hreps : p.PeerIDs.zip (scanResult n w ⟨[], false, true⟩ p.PeerIDs).reps =
      p.PeerIDs.map (fun q => (q, readRep n w q)) := by
    simp [scanResult, zip_map_self]
  have hdisc : (scanResult n w ⟨[], false, true⟩ p.PeerIDs).disconnect =
      p.PeerIDs.any (fun q => decide (readRep n w q < 0)) := by
    simp [scanResult]
  obtain ⟨a₁, a₂, a₃⟩ := applyReputation_ok n d (readRep n w) p.PeerIDs
    (w₁.emit (.getReputation (RegistryLocation n) p.ID))
    (p.PeerIDs.any (fun q => decide (readRep n w q < 0)))
    (fun pid h => htag pid h _)
  have a₄ := applyReputation_conns n d (p.PeerIDs.map (fun q => (q, readRep n w q)))
    (w₁.emit (.getReputation (RegistryLocation n) p.ID))
    (p.PeerIDs.any (fun q => decide (readRep n w q < 0)))
  rcases hA : applyReputation n d (w₁.emit (.getReputation (RegistryLocation n) p.ID))
    (p.PeerIDs.any (fun q => decide (readRep n w q < 0)))
    (p.PeerIDs.map (fun q => (q, readRep n w q))) with ⟨r₂, w₂⟩
  rw [hA] at a₁ a₂ a₃ a₄
  simp only [] at a₁ a₂ a₃ a₄
  subst a₁
  refine ⟨w₂, ?_, ?_, ?_, ?_⟩
  · intro q
    rw [a₂ q]
    by_cases hq : q ∈ p.PeerIDs
    · simp [hq]
    · simp [hq, s₂ q]
  · rw [a₄]; exact s₃
  · rw [a₃]; simp
  · simp only [checkReputation, hS, hchecked, hloc, hreg, hreps, hdisc, hA]
    simp

theorem readRep_eq_baseline_iff (n : QriNode) (w : World) (pid : PeerID) :
    readRep n w pid = n.qriBaselineReputation ↔
      (w.scores pid = none ∨ w.scores pid = some n.qriBaselineReputation) := by
  unfold readRep
  cases w.scores pid <;> simp

theorem DisconnectFromProfile_scores (n : QriNode) (w : World) (p : Profile) :
    (DisconnectFromProfile n w p).2.scores = w.scores :=
  disconnectPeers_scores n p.PeerIDs w

/-- An error return of `checkReputation` comes before any disconnect. -/
theorem checkReputation_error_no_disconnect (n : QriNode) (w : World) (p : Profile)
    (e : GoError) (h : (checkReputation n w p).1 = some e) :
    ∀ x ∈ (checkReputation n w p).2.since w, x.isDisconnect = false := by
  obtain ⟨es₁, l₁, k₁⟩ := scanReputations_log n p.PeerIDs w ⟨[], false, true⟩
  have notDisc : ∀ x : Event, x.isScore = true → x.isDisconnect = false := by
    intro x hx; cases x <;> simp_all [Event.isScore, Event.isDisconnect]
  unfold checkReputation at h ⊢
  rcases hS : scanReputations n w ⟨[], false, true⟩ p.PeerIDs with ⟨_ | s, w₁⟩
  · rw [hS] at l₁
    simp only [] at l₁ ⊢
    rw [World.since_of_log l₁]
    exact fun x hx => notDisc x (k₁ x hx)
  · rw [hS] at l₁ h
    simp only [] at l₁ h ⊢
    by_cases hc : s.checked = true
    · by_cases hd : s.disconnect = true <;> simp [hc, hd] at h
    · simp only [hc] at h ⊢
      by_cases hloc : RegistryLocation n = ""
      · simp only [hloc, if_true] at h ⊢
        simp only [Bool.false_eq_true, if_false]
        rw [World.since_of_log l₁]
        exact fun x hx => notDisc x (k₁ x hx)
      · simp only [hloc, if_false, Bool.false_eq_true] at h ⊢
        cases hreg : n.getReputation (RegistryLocation n) p.ID with
        | error e' =>
          simp only []
          have : (w₁.emit (.getReputation (RegistryLocation n) p.ID)).log =
              w.log ++ (es₁ ++ [.getReputation (RegistryLocation n) p.ID]) := by
            simp [l₁]
          rw [World.since_of_log this]
          intro x hx
          rcases List.mem_append.1 hx with hx | hx
          · exact notDisc x (k₁ x hx)
          · simp only [List.mem_singleton] at hx; subst hx; rfl
        | ok rep =>
          rw [hreg] at h
          simp only [] at h ⊢
          obtain ⟨es₂, l₂, k₂⟩ := applyReputation_log n rep (p.PeerIDs.zip s.reps)
            (w₁.emit (.getReputation (RegistryLocation n) p.ID)) s.disconnect
          rcases hA : applyReputation n rep (w₁.emit (.getReputation (RegistryLocation n) p.ID))
            s.disconnect (p.PeerIDs.zip s.reps) with ⟨_ | dd, w₂⟩
          · rw [hA] at l₂
            simp only [] at l₂ ⊢
            have : w₂.log = w.log ++ (es₁ ++ [.getReputation (RegistryLocation n) p.ID] ++ es₂) := by
              rw [l₂]; simp [l₁]
            rw [World.since_of_log this]
            intro x hx
            rcases List.mem_append.1 hx with hx | hx
            · rcases List.mem_append.1 hx with hx | hx
              · exact notDisc x (k₁ x hx)
              · simp only [List.mem_singleton] at hx; subst hx; rfl
            · exact notDisc x (k₂ x hx)
          · rw [hA] at h
            simp only [] at h
            by_cases hdd : dd = true <;> simp [hdd] at h

theorem scanReputations_withCloseErr (n : QriNode) (ce : Conn → Option GoError)
    (pids : List PeerID) :
    ∀ (w : World) (s : Scan),
      scanReputations (n.withCloseErr ce) w s pids = scanReputations n w s pids := by
  induction pids with
  | nil => intro w s; rfl
  | cons pid pids ih =>
    intro w s
    unfold scanReputations
    simp only [ih]
    rfl

theorem applyReputation_withCloseErr (n : QriNode) (ce : Conn → Option GoError) (rep : Int)
    (l : List (PeerID × Int)) :
    ∀ (w : World) (d : Bool),
      applyReputation (n.withCloseErr ce) rep w d l = applyReputation n rep w d l := by
  induction l with
  | nil => intro w d; rfl
  | cons a l ih =>
    intro w d
    obtain ⟨pid, r⟩ := a
    unfold applyReputation
    simp only [ih]
    rfl

/-- The error `checkReputation` returns and the scores it leaves do not depend on
how closing connections goes. -/
theorem checkReputation_withCloseErr (n : QriNode) (ce : Conn → Option GoError) (w : World)
    (p : Profile) :
    (checkReputation (n.withCloseErr ce) w p).1 = (checkReputation n w p).1 ∧
    (checkReputation (n.withCloseErr ce) w p).2.scores = (checkReputation n w p).2.scores := by
  have hloc : RegistryLocation (n.withCloseErr ce) = RegistryLocation n := rfl
  have hreg : (n.withCloseErr ce).getReputation = n.getReputation := rfl
  unfold checkReputation
  rw [scanReputations_withCloseErr, hloc, hreg]
  rcases hS : scanReputations n w ⟨[], false, true⟩ p.PeerIDs with ⟨_ | s, w₁⟩
  · exact ⟨rfl, rfl⟩
  · simp only []
    by_cases hc : s.checked = true
    · by_cases hd : s.disconnect = true
      · simp only [hc, hd, if_true, DisconnectFromProfile_scores, and_self]
      · simp only [hc, hd, if_true, and_self]
        simp
    · simp only [hc]
      by_cases hl : RegistryLocation n = ""
      · simp only [hl, if_true, and_self]
        simp
      · simp only [hl, if_false]
        cases hr : n.getReputation (RegistryLocation n) p.ID with
        | error e' => exact ⟨rfl, rfl⟩
        | ok rep =>
          simp only [applyReputation_withCloseErr]
          rcases hA : applyReputation n rep (w₁.emit (.getReputation (RegistryLocation n) p.ID))
            s.disconnect (p.PeerIDs.zip s.reps) with ⟨_ | dd, w₂⟩
          · exact ⟨rfl, rfl⟩
          · simp only []
            by_cases hdd : dd = true
            · simp [hdd, DisconnectFromProfile_scores]
            · simp [hdd]

/-! ## Claims on checkReputation -/

/-- C1 (as stated, refuted): in `exampleWorld` the identifier `a` of
`exampleProfile` has the cached score 7, off the baseline 1, while `b` has none;
`checkReputation` still asks the registry. -/
theorem checkReputation_lookup_despite_checked_peer :
    (∃ pid ∈ exampleProfile.PeerIDs, exampleWorld.scores pid ≠ none ∧
        exampleWorld.scores pid ≠ some exampleNode.qriBaselineReputation) ∧
    Event.getReputation "reg" "p" ∈
      (checkReputation exampleNode exampleWorld exampleProfile).2.since exampleWorld := by
  decide

/-- C1 (amended): when every peer identifier of the profile has a cached score
different from the baseline, `checkReputation` issues no registry lookup. -/
theorem checkReputation_all_checked_no_lookup (n : QriNode) (w : World) (p : Profile)
    (h : ∀ pid ∈ p.PeerIDs,
      w.scores pid ≠ none ∧ w.scores pid ≠ some n.qriBaselineReputation) :
    ∀ loc id, Event.getReputation loc id ∉ (checkReputation n w p).2.since w := by
  have h' : ∀ pid ∈ p.PeerIDs, ∃ v, w.scores pid = some v ∧ v ≠ n.qriBaselineReputation := by
    intro pid hp
    obtain ⟨h₁, h₂⟩ := h pid hp
    cases hs : w.scores pid with
    | none => exact absurd hs h₁
    | some v => exact ⟨v, rfl, fun hv => h₂ (by rw [hs, hv])⟩
  obtain ⟨es₁, l₁, k₁⟩ := scanReputations_log n p.PeerIDs w ⟨[], false, true⟩
  have hck := scanReputations_all_cached n p.PeerIDs w ⟨[], false, true⟩ h'
  have key : ∀ x ∈ (checkReputation n w p).2.since w,
      x.isScore = true ∨ x.isDisconnect = true := by
    unfold checkReputation
    rcases hS : scanReputations n w ⟨[], false, true⟩ p.PeerIDs with ⟨_ | s, w₁⟩
    · rw [hS] at l₁
      simp only [] at l₁ ⊢
      rw [World.since_of_log l₁]
      exact fun x hx => Or.inl (k₁ x hx)
    · rw [hS] at l₁ hck
      simp only [] at l₁ hck ⊢
      have hc : s.checked = true := hck s rfl
      simp only [hc, if_true]
      by_cases hd : s.disconnect = true
      · simp only [hd, if_true]
        obtain ⟨es₂, l₂, k₂⟩ := disconnectPeers_log n p.PeerIDs w₁
        have : (DisconnectFromProfile n w₁ p).2.log = w.log ++ (es₁ ++ es₂) := by
          unfold DisconnectFromProfile; rw [l₂, l₁]; simp
        rw [World.since_of_log this]
        intro x hx
        rcases List.mem_append.1 hx with hx | hx
        · exact Or.inl (k₁ x hx)
        · exact Or.inr (k₂ x hx)
      · simp only [hd, Bool.false_eq_true, if_false]
        rw [World.since_of_log l₁]
        exact fun x hx => Or.inl (k₁ x hx)
  intro loc id hmem
  rcases key _ hmem with hk | hk <;> simp [Event.isScore, Event.isDisconnect] at hk

/-- C1 (amended), at an input: `a` is the only identifier of `singleProfile` and
its cached score 7 is off the baseline 1. -/
theorem checkReputation_all_checked_no_lookup_witness :
    Event.getReputation "reg" "p" ∉
      (checkReputation exampleNode exampleWorld singleProfile).2.since exampleWorld :=
  checkReputation_all_checked_no_lookup exampleNode exampleWorld singleProfile (by decide)
    "reg" "p"

/-- C2: for a profile none of whose peer identifiers has a cached score, when no
peerstore access fails and the registry answers `d`, `checkReputation` returns
nil; when the registry is consulted every identifier holds exactly the baseline;
when the check returns every identifier holds the Go sum of the baseline and `d`
(which is `baseline + d` when that fits an `int`); and the calls made after the
scan are the registry lookup, one write of that sum per identifier, and
disconnect calls only. -/
theorem checkReputation_fresh_profile (n : QriNode) (w : World) (p : Profile) (d : Int)
    (hnew : ∀ pid ∈ p.PeerIDs, w.scores pid = none)
    (hget : ∀ pid ∈ p.PeerIDs, n.peerstoreGetErr pid = none)
    (htag : ∀ pid ∈ p.PeerIDs, ∀ v, n.tagErr pid v = none)
    (hloc : RegistryLocation n ≠ "")
    (hreg : n.getReputation (RegistryLocation n) p.ID = .ok d) :
    (checkReputation n w p).1 = none ∧
    (∀ pid ∈ p.PeerIDs,
      (scanReputations n w ⟨[], false, true⟩ p.PeerIDs).2.scores pid =
        some n.qriBaselineReputation ∧
      (checkReputation n w p).2.scores pid = some (addInt n.qriBaselineReputation d) ∧
      (-(2 ^ 63) ≤ n.qriBaselineReputation + d → n.qriBaselineReputation + d < 2 ^ 63 →
        (checkReputation n w p).2.scores pid = some (n.qriBaselineReputation + d))) ∧
    (p.PeerIDs ≠ [] → ∃ es, (∀ e ∈ es, e.isDisconnect = true) ∧
      (checkReputation n w p).2.log =
        (scanReputations n w ⟨[], false, true⟩ p.PeerIDs).2.log ++
          Event.getReputation (RegistryLocation n) p.ID ::
            p.PeerIDs.map (fun q => Event.tagReputation q (addInt n.qriBaselineReputation d))
          ++ es) := by
  have hrd : ∀ pid ∈ p.PeerIDs, readRep n w pid = n.qriBaselineReputation := by
    intro pid hp; simp [readRep, hnew pid hp]
  obtain ⟨_, s₂⟩ := scanReputations_ok n p.PeerIDs w ⟨[], false, true⟩ hget
    (fun pid h => htag pid h _)
  by_cases hne : p.PeerIDs = []
  · refine ⟨?_, ?_, fun h => absurd hne h⟩
    · simp [checkReputation, hne, scanReputations]
    · intro pid hp; rw [hne] at hp; cases hp
  · obtain ⟨q₀, hq₀⟩ := List.exists_mem_of_ne_nil _ hne
    obtain ⟨w₂, c₁, _, c₃, c₄⟩ := checkReputation_lookup_shape n w p d hget htag
      ⟨q₀, hq₀, hrd q₀ hq₀⟩ hloc hreg
    have hmap : p.PeerIDs.map (fun q => Event.tagReputation q (addInt (readRep n w q) d)) =
        p.PeerIDs.map (fun q => Event.tagReputation q (addInt n.qriBaselineReputation d)) :=
      List.map_congr_left (fun q hq => by rw [hrd q hq])
    rw [hmap] at c₃
    have hscores : (checkReputation n w p).2.scores = w₂.scores := by
      rw [c₄]; split
      · exact DisconnectFromProfile_scores n w₂ p
      · rfl
    refine ⟨by rw [c₄]; split <;> rfl, ?_, fun _ => ?_⟩
    · intro pid hp
      have hfin : (checkReputation n w p).2.scores pid =
          some (addInt n.qriBaselineReputation d) := by
        rw [hscores, c₁ pid, if_pos hp, hrd pid hp]
      refine ⟨?_, hfin, fun h₁ h₂ => ?_⟩
      · rw [s₂ pid, if_pos hp, hrd pid hp]
      · rw [hfin, addInt, wrapInt_of_inRange _ h₁ h₂]
    · rw [c₄]; split
      · obtain ⟨es, l, k⟩ := disconnectPeers_log n p.PeerIDs w₂
        exact ⟨es, k, by unfold DisconnectFromProfile; rw [l, c₃]⟩
      · exact ⟨[], by simp, by simp [c₃]⟩

/-- C2, at an input: `b`, the identifier of `freshProfile`, has no cached score in
`exampleWorld`; the registry of `exampleNode` answers 5 and the baseline is 1. -/
theorem checkReputation_fresh_profile_witness :
    (scanReputations exampleNode exampleWorld ⟨[], false, true⟩ ["b"]).2.scores "b" = some 1 ∧
    (checkReputation exampleNode exampleWorld freshProfile).2.scores "b" = some 6 :=
  have h := checkReputation_fresh_profile exampleNode exampleWorld freshProfile 5
    (by decide) (by decide) (fun _ _ _ => rfl) (by decide) rfl
  ⟨(h.2.1 "b" (by decide)).1, (h.2.1 "b" (by decide)).2.2 (by decide) (by decide)⟩

/-- C3: when the scan finds an identifier at the baseline, the registry answers,
no peerstore access and no close fails, and the check leaves the score of some
peer identifier of the profile negative, `checkReputation` closes every open
connection to every peer identifier of the profile: each one is closed during
the call, and the connections left open are those to other peers. -/
theorem checkReputation_negative_disconnects_all (n : QriNode) (w : World) (p : Profile)
    (d : Int)
    (hget : ∀ pid ∈ p.PeerIDs, n.peerstoreGetErr pid = none)
    (htag : ∀ pid ∈ p.PeerIDs, ∀ v, n.tagErr pid v = none)
    (hbase : ∃ pid ∈ p.PeerIDs,
      w.scores pid = none ∨ w.scores pid = some n.qriBaselineReputation)
    (hloc : RegistryLocation n ≠ "")
    (hreg : n.getReputation (RegistryLocation n) p.ID = .ok d)
    (hneg : ∃ pid ∈ p.PeerIDs, ∃ v, (checkReputation n w p).2.scores pid = some v ∧ v < 0)
    (hclose : ∀ c ∈ w.conns, n.closeErr c = none) :
    (∀ c ∈ w.conns, c.RemotePeer ∈ p.PeerIDs →
      Event.connClose c ∈ (checkReputation n w p).2.since w) ∧
    (checkReputation n w p).2.conns =
      w.conns.filter (fun c => decide (c.RemotePeer ∉ p.PeerIDs)) := by
  obtain ⟨q₀, hq₀, hb₀⟩ := hbase
  obtain ⟨w₂, c₁, c₂, c₃, c₄⟩ := checkReputation_lookup_shape n w p d hget htag
    ⟨q₀, hq₀, (readRep_eq_baseline_iff n w q₀).2 hb₀⟩ hloc hreg
  have hscores : (checkReputation n w p).2.scores = w₂.scores := by
    rw [c₄]; split
    · exact DisconnectFromProfile_scores n w₂ p
    · rfl
  have hany : (p.PeerIDs.any (fun q => decide (readRep n w q < 0)) ||
      p.PeerIDs.any (fun q => decide (addInt (readRep n w q) d < 0))) = true := by
    obtain ⟨pid, hp, v, hv, hlt⟩ := hneg
    rw [hscores, c₁ pid, if_pos hp] at hv
    cases hv
    rw [Bool.or_eq_true]
    exact Or.inr (List.any_eq_true.2 ⟨pid, hp, by simpa using hlt⟩)
  rw [c₄, if_pos hany]
  obtain ⟨_, d₂, es, d₃, d₄⟩ := disconnectPeers_ok n p.PeerIDs w₂ (by rw [c₂]; exact hclose)
  obtain ⟨es₁, l₁, _⟩ := scanReputations_log n p.PeerIDs w ⟨[], false, true⟩
  refine ⟨?_, ?_⟩
  · have : (DisconnectFromProfile n w₂ p).2.log = w.log ++ (es₁ ++
        Event.getReputation (RegistryLocation n) p.ID ::
          p.PeerIDs.map (fun q => Event.tagReputation q (addInt (readRep n w q) d)) ++ es) := by
      unfold DisconnectFromProfile; rw [d₃, c₃, l₁]; simp
    intro c hc hm
    simp only []
    rw [World.since_of_log this]
    exact List.mem_append_right _ (d₄ c (by rw [c₂]; exact hc) hm)
  · simp only [DisconnectFromProfile]
    rw [d₂, c₂]

/-- C3, at an input: the registry of `harshNode` answers -3, which leaves `a` at 4
and brings `b` to -2; the connections to both are closed, the one to `z` stays. -/
theorem checkReputation_negative_disconnects_all_witness :
    (∀ c ∈ exampleWorld.conns, c.RemotePeer ∈ exampleProfile.PeerIDs →
      Event.connClose c ∈
        (checkReputation harshNode exampleWorld exampleProfile).2.since exampleWorld) ∧
    (checkReputation harshNode exampleWorld exampleProfile).2.conns =
      exampleWorld.conns.filter (fun c => decide (c.RemotePeer ∉ exampleProfile.PeerIDs)) :=
  checkReputation_negative_disconnects_all harshNode exampleWorld exampleProfile (-3)
    (by decide) (fun _ _ _ => rfl) (by decide) (by decide) rfl
    ⟨"b", by decide, -2, by decide, by decide⟩ (by decide)

/-- C4 (as stated, refuted): `noRegistryNode` has no registry and `b` has no cached
score, so the check of `freshProfile` needs a lookup and returns the "no registry"
error; yet the score store is not as before, `b` now holds the baseline. -/
theorem checkReputation_no_registry_changes_scores :
    RegistryLocation noRegistryNode = "" ∧
    (checkReputation noRegistryNode exampleWorld freshProfile).1 =
      some "check reputation: no registry provided" ∧
    exampleWorld.scores "b" = none ∧
    (checkReputation noRegistryNode exampleWorld freshProfile).2.scores "b" = some 1 := by
  decide

/-- C4 (amended): when the scan succeeds and finds an identifier at the baseline,
and no registry is configured or the lookup fails, `checkReputation` returns an
error, makes no disconnect call, leaves the connections as they were, and leaves
every cached score as it was; the identifiers of the profile that had no cached
score now hold the baseline. -/
theorem checkReputation_registry_failure (n : QriNode) (w : World) (p : Profile)
    (hget : ∀ pid ∈ p.PeerIDs, n.peerstoreGetErr pid = none)
    (htag : ∀ pid ∈ p.PeerIDs, n.tagErr pid n.qriBaselineReputation = none)
    (hbase : ∃ pid ∈ p.PeerIDs,
      w.scores pid = none ∨ w.scores pid = some n.qriBaselineReputation)
    (hfail : RegistryLocation n = "" ∨
      ∃ e, n.getReputation (RegistryLocation n) p.ID = .error e) :
    (checkReputation n w p).1 ≠ none ∧
    (∀ x ∈ (checkReputation n w p).2.since w, x.isDisconnect = false) ∧
    (checkReputation n w p).2.conns = w.conns ∧
    ∀ pid, (checkReputation n w p).2.scores pid =
      if pid ∈ p.PeerIDs ∧ w.scores pid = none then some n.qriBaselineReputation
      else w.scores pid := by
  obtain ⟨s₁, s₂⟩ := scanReputations_ok n p.PeerIDs w ⟨[], false, true⟩ hget htag
  have s₃ := scanReputations_conns n p.PeerIDs w ⟨[], false, true⟩
  have hchecked : (scanResult n w ⟨[], false, true⟩ p.PeerIDs).checked = false := by
    obtain ⟨pid, hm, hb⟩ := hbase
    simp only [scanResult, Bool.true_and]
    rw [List.all_eq_false]
    exact ⟨pid, hm, by simp [(readRep_eq_baseline_iff n w pid).2 hb]⟩
  have hres : ∃ e w₁, checkReputation n w p = (some e, w₁) ∧ w₁.conns = w.conns ∧
      ∀ pid, w₁.scores pid = if pid ∈ p.PeerIDs then some (readRep n w pid) else w.scores pid := by
    rcases hS : scanReputations n w ⟨[], false, true⟩ p.PeerIDs with ⟨r, w₁⟩
    rw [hS] at s₁ s₂ s₃
    simp only [] at s₁ s₂ s₃
    subst s₁
    by_cases hloc : RegistryLocation n = ""
    · exact ⟨"check reputation: no registry provided", w₁,
        by simp [checkReputation, hS, hchecked, hloc], s₃, s₂⟩
    · rcases hfail with hf | ⟨e, hf⟩
      · exact absurd hf hloc
      · exact ⟨e, w₁.emit (.getReputation (RegistryLocation n) p.ID),
          by simp [checkReputation, hS, hchecked, hloc, hf], s₃, s₂⟩
  obtain ⟨e, w₁, hc, hconns, hsc⟩ := hres
  refine ⟨by rw [hc]; simp, ?_, by rw [hc]; exact hconns, ?_⟩
  · exact checkReputation_error_no_disconnect n w p e (by rw [hc])
  · intro pid
    rw [hc]
    simp only []
    rw [hsc pid]
    by_cases hp : pid ∈ p.PeerIDs
    · cases hs : w.scores pid <;> simp [hp, readRep, hs]
    · simp [hp]

/-- C4 (amended), at an input: no registry, `a` cached at 7 and `b` without a score. -/
theorem checkReputation_registry_failure_witness :
    (checkReputation noRegistryNode exampleWorld exampleProfile).1 ≠ none ∧
    (checkReputation noRegistryNode exampleWorld exampleProfile).2.conns = exampleWorld.conns ∧
    (checkReputation noRegistryNode exampleWorld exampleProfile).2.scores "a" = some 7 ∧
    (checkReputation noRegistryNode exampleWorld exampleProfile).2.scores "b" = some 1 ∧
    (checkReputation noRegistryNode exampleWorld exampleProfile).2.scores "z" = none :=
  have h := checkReputation_registry_failure noRegistryNode exampleWorld exampleProfile
    (by decide) (by decide) (by decide) (Or.inl rfl)
  ⟨h.1, h.2.2.1, h.2.2.2 "a", h.2.2.2 "b", h.2.2.2 "z"⟩

/-- C5 (as stated, refuted): on `stuckNode` every close fails; `a` is cached at -3,
so the check of `singleProfile` decides to disconnect and tries to close the
connection to `a`, which fails; `checkReputation` returns nil all the same. -/
theorem checkReputation_close_failure_returns_nil :
    Event.connClose ⟨0, "me", "a"⟩ ∈
      (checkReputation stuckNode negativeWorld singleProfile).2.since negativeWorld ∧
    stuckNode.closeErr ⟨0, "me", "a"⟩ = some "close failed" ∧
    (checkReputation stuckNode negativeWorld singleProfile).1 = none := by
  decide

/-- C5 (amended): when `checkReputation` tries to close a connection and the
close fails, it still returns nil (the error of `DisconnectFromProfile` is
dropped), and the scores are kept: they are the scores the same check leaves on
a node whose closes all succeed. -/
theorem checkReputation_close_failure_discarded (n : QriNode) (w : World) (p : Profile)
    (c : Conn) (e : GoError)
    (hc : Event.connClose c ∈ (checkReputation n w p).2.since w)
    (_hfail : n.closeErr c = some e) :
    (checkReputation n w p).1 = none ∧
    (checkReputation n w p).2.scores =
      (checkReputation (n.withCloseErr (fun _ => none)) w p).2.scores := by
  refine ⟨?_, (checkReputation_withCloseErr n _ w p).2.symm⟩
  cases hr : (checkReputation n w p).1 with
  | none => rfl
  | some e' =>
    have := checkReputation_error_no_disconnect n w p e' hr _ hc
    simp [Event.isDisconnect] at this

/-- C5 (amended), at an input: the failing close of the connection to `a`. -/
theorem checkReputation_close_failure_discarded_witness :
    (checkReputation stuckNode negativeWorld singleProfile).1 = none ∧
    (checkReputation stuckNode negativeWorld singleProfile).2.scores =
      (checkReputation (stuckNode.withCloseErr (fun _ => none)) negativeWorld
        singleProfile).2.scores :=
  checkReputation_close_failure_discarded stuckNode negativeWorld singleProfile
    ⟨0, "me", "a"⟩ "close failed" (by decide) rfl

/-! ## Claims on the resolver -/

theorem length_eq_zero_iff (s : String) : s.length = 0 ↔ s = "" := by
  cases s with
  | mk data =>
    constructor
    · intro h
      cases data with
      | nil => rfl
      | cons a l => simp [String.length] at h
    · intro h
      exact congrArg String.length h

/-- C6: when the `Multiaddr` is set and `toPeerInfos` yields a descriptor for it,
`peerConnectionParamsToPeerInfo` returns that descriptor with a nil error,
whatever `Peername`, `ProfileID` and `PeerID` are, and makes no call on the
profile store, the peerstore or the routing service: the world is untouched. -/
theorem peerConnectionParamsToPeerInfo_multiaddr (n : QriNode) (w : World) (m : Multiaddr)
    (pi : PeerInfo) (rest : List PeerInfo) (h : n.toPeerInfos [m] = pi :: rest) :
    ∀ (name : String) (proID : ProfileID) (pid : PeerID),
      peerConnectionParamsToPeerInfo n w ⟨name, proID, pid, some m⟩ = (some (pi, none), w) ∧
      (peerConnectionParamsToPeerInfo n w ⟨name, proID, pid, some m⟩).2.since w = [] := by
  intro name proID pid
  have : peerConnectionParamsToPeerInfo n w ⟨name, proID, pid, some m⟩ = (some (pi, none), w) := by
    simp [peerConnectionParamsToPeerInfo, h]
  exact ⟨this, by rw [this]; simp [World.since]⟩

/-- C6, at an input: an address next to a peername, a profile ID and a peer ID. -/
theorem peerConnectionParamsToPeerInfo_multiaddr_witness :
    peerConnectionParamsToPeerInfo exampleNode exampleWorld
      ⟨"bob", "p", "a", some "/ip4/10.0.0.9/tcp/4001"⟩ =
      (some (⟨"/ip4/10.0.0.9/tcp/4001", ["/ip4/10.0.0.9/tcp/4001"]⟩, none), exampleWorld) :=
  (peerConnectionParamsToPeerInfo_multiaddr exampleNode exampleWorld "/ip4/10.0.0.9/tcp/4001"
    ⟨"/ip4/10.0.0.9/tcp/4001", ["/ip4/10.0.0.9/tcp/4001"]⟩ [] rfl "bob" "p" "a").1

/-- C7: for parameters that carry only a peername, when the profile store
answers `PeernameID` with an error, `peerConnectionParamsToPeerInfo` returns
that error with the empty descriptor, and the only call it makes is that
`PeernameID`: no `PeerIDs`, no peerstore and no routing lookup. -/
theorem peerConnectionParamsToPeerInfo_unknown_peername (n : QriNode) (w : World)
    (name : String) (proID : ProfileID) (e : GoError)
    (hname : name ≠ "") (hunknown : n.peernameID name = (proID, some e)) :
    (peerConnectionParamsToPeerInfo n w ⟨name, "", "", none⟩).1 = some (PeerInfo.zero, some e) ∧
    (peerConnectionParamsToPeerInfo n w ⟨name, "", "", none⟩).2.since w =
      [Event.peernameID name] := by
  have : peerConnectionParamsToPeerInfo n w ⟨name, "", "", none⟩ =
      (some (PeerInfo.zero, some e), w.emit (.peernameID name)) := by
    simp [peerConnectionParamsToPeerInfo, hname, hunknown]
  rw [this]
  exact ⟨rfl, World.since_of_log rfl⟩

/-- C7, at an input: the profile store of `exampleNode` knows no peername. -/
theorem peerConnectionParamsToPeerInfo_unknown_peername_witness :
    (peerConnectionParamsToPeerInfo exampleNode exampleWorld ⟨"bob", "", "", none⟩).1 =
      some (PeerInfo.zero, some "profile: not found") ∧
    (peerConnectionParamsToPeerInfo exampleNode exampleWorld ⟨"bob", "", "", none⟩).2.since
      exampleWorld = [Event.peernameID "bob"] :=
  peerConnectionParamsToPeerInfo_unknown_peername exampleNode exampleWorld "bob" "" _
    (by decide) rfl

/-- C8: for parameters with no `Multiaddr` and an empty `PeerID`, let `proID` be
the profile identifier supplied, or the one the peername resolves to when none
is supplied, and let the profile store answer `PeerIDs(proID)` with `ids` and no
error.  If `ids` is empty the resolver returns the empty descriptor with a
non-nil error; otherwise it returns what `getPeerInfo` returns for the first
identifier of `ids`. -/
theorem peerConnectionParamsToPeerInfo_profile (n : QriNode) (w : World)
    (p : PeerConnectionParams) (proID : ProfileID) (ids : List PeerID)
    (hm : p.Multiaddr = none) (hp : p.PeerID = "")
    (hpro : (p.ProfileID = proID ∧ (p.ProfileID ≠ "" ∨ p.Peername = "")) ∨
      (p.ProfileID = "" ∧ p.Peername ≠ "" ∧ n.peernameID p.Peername = (proID, none)))
    (hids : n.peerIDs proID = (ids, none)) :
    (ids = [] → (peerConnectionParamsToPeerInfo n w p).1 =
      some (PeerInfo.zero, some ("no network info for " ++ proID))) ∧
    (∀ id rest, ids = id :: rest →
      (peerConnectionParamsToPeerInfo n w p).1 = some (getPeerInfo n w id).1 ∧
      ∃ w₁, peerConnectionParamsToPeerInfo n w p =
        (some (getPeerInfo n w₁ id).1, (getPeerInfo n w₁ id).2)) := by
  have hres : ∀ w₀ : World,
      (ids = [] → (resolveProfileID n w₀ proID).1 =
        (PeerInfo.zero, some ("no network info for " ++ proID))) ∧
      (∀ id rest, ids = id :: rest →
        resolveProfileID n w₀ proID = getPeerInfo n (w₀.emit (.peerIDs proID)) id) := by
    intro w₀
    constructor
    · intro h; subst h; simp [resolveProfileID, hids]
    · intro id rest h; subst h; simp [resolveProfileID, hids]
  have hind : ∀ (w₁ w₂ : World) (id : PeerID), (getPeerInfo n w₁ id).1 = (getPeerInfo n w₂ id).1 := by
    intro w₁ w₂ id
    unfold getPeerInfo
    split
    · rfl
    · split <;> rfl
  obtain ⟨name, pro, pid, ma⟩ := p
  simp only [] at hm hp hpro
  subst hm hp
  have hstep : ∃ w₀, peerConnectionParamsToPeerInfo n w ⟨name, pro, "", none⟩ =
      (some (resolveProfileID n w₀ proID).1, (resolveProfileID n w₀ proID).2) := by
    rcases hpro with ⟨h₁, h₂⟩ | ⟨h₁, h₂, h₃⟩
    · subst h₁
      refine ⟨w, ?_⟩
      rcases h₂ with h₂ | h₂
      · simp [peerConnectionParamsToPeerInfo, length_eq_zero_iff, h₂]
      · simp [peerConnectionParamsToPeerInfo, h₂]
    · subst h₁
      exact ⟨w.emit (.peernameID name), by simp [peerConnectionParamsToPeerInfo, h₂, h₃]⟩
  obtain ⟨w₀, hw₀⟩ := hstep
  rw [hw₀]
  refine ⟨fun h => by rw [((hres w₀).1 h)], fun id rest h => ?_⟩
  rw [(hres w₀).2 id rest h]
  exact ⟨by rw [hind _ w id], _, rfl⟩

/-- C8, at two inputs: the peername `alice` resolves to the profile `pa`, whose
first identifier is `a`; the profile `pe` has no identifier. -/
theorem peerConnectionParamsToPeerInfo_profile_witness :
    (peerConnectionParamsToPeerInfo knownNode exampleWorld ⟨"alice", "", "", none⟩).1 =
      some (getPeerInfo knownNode exampleWorld "a").1 ∧
    (peerConnectionParamsToPeerInfo knownNode exampleWorld ⟨"", "pe", "", none⟩).1 =
      some (PeerInfo.zero, some "no network info for pe") :=
  ⟨((peerConnectionParamsToPeerInfo_profile knownNode exampleWorld ⟨"alice", "", "", none⟩
      "pa" ["a", "b"] rfl rfl (Or.inr ⟨rfl, by decide, rfl⟩) rfl).2 "a" ["b"] rfl).1,
   (peerConnectionParamsToPeerInfo_profile knownNode exampleWorld ⟨"", "pe", "", none⟩
      "pe" [] rfl rfl (Or.inl ⟨rfl, Or.inl (by decide)⟩) rfl).1 rfl⟩

/-- C9 (as stated, refuted): the peerstore entry of `exampleNode` for `a` names `a`
and has no address; `getPeerInfo` returns it and issues no routing lookup. -/
theorem getPeerInfo_no_address_no_lookup :
    (exampleNode.peerstorePeerInfo "a").Addrs = [] ∧
    (getPeerInfo exampleNode exampleWorld "a").1 = (⟨"a", []⟩, none) ∧
    Event.findPeer "a" ∉ (getPeerInfo exampleNode exampleWorld "a").2.since exampleWorld := by
  decide

/-- C9 (amended): `getPeerInfo` reads the local address-book entry; it returns
that entry with a nil error and no routing lookup exactly when the identifier of
the entry is not empty, whether or not the entry has an address.  When the
identifier of the entry is empty and the store is IPFS backed, it issues the
routing lookup and returns its descriptor and error verbatim; when the store is
not IPFS backed it returns the empty descriptor and the `IPFSNode` error, with
no routing lookup. -/
theorem getPeerInfo_cases (n : QriNode) (w : World) (pid : PeerID) :
    ((n.peerstorePeerInfo pid).ID ≠ "" →
      getPeerInfo n w pid = ((n.peerstorePeerInfo pid, none), w.emit (.peerInfo pid))) ∧
    ((n.peerstorePeerInfo pid).ID = "" → n.storeIsIPFS = true →
      getPeerInfo n w pid = (n.findPeer pid, (w.emit (.peerInfo pid)).emit (.findPeer pid))) ∧
    ((n.peerstorePeerInfo pid).ID = "" → n.storeIsIPFS = false →
      getPeerInfo n w pid =
        ((PeerInfo.zero, some "not using IPFS"), w.emit (.peerInfo pid))) ∧
    (Event.findPeer pid ∈ (getPeerInfo n w pid).2.since w ↔
      ((n.peerstorePeerInfo pid).ID = "" ∧ n.storeIsIPFS = true)) := by
  have hpos : 0 < (n.peerstorePeerInfo pid).ID.length ↔ (n.peerstorePeerInfo pid).ID ≠ "" := by
    rw [Nat.pos_iff_ne_zero, Ne, length_eq_zero_iff]
  have h₁ : (n.peerstorePeerInfo pid).ID ≠ "" →
      getPeerInfo n w pid = ((n.peerstorePeerInfo pid, none), w.emit (.peerInfo pid)) := by
    intro h; simp [getPeerInfo, hpos.2 h]
  have h₂ : (n.peerstorePeerInfo pid).ID = "" → n.storeIsIPFS = true →
      getPeerInfo n w pid = (n.findPeer pid, (w.emit (.peerInfo pid)).emit (.findPeer pid)) := by
    intro h hi; simp [getPeerInfo, h, IPFSNode, hi]
  have h₃ : (n.peerstorePeerInfo pid).ID = "" → n.storeIsIPFS = false →
      getPeerInfo n w pid =
        ((PeerInfo.zero, some "not using IPFS"), w.emit (.peerInfo pid)) := by
    intro h hi; simp [getPeerInfo, h, IPFSNode, hi]
  refine ⟨h₁, h₂, h₃, ?_⟩
  by_cases hid : (n.peerstorePeerInfo pid).ID = ""
  · cases hi : n.storeIsIPFS with
    | true =>
      rw [h₂ hid hi]
      have : ((w.emit (.peerInfo pid)).emit (.findPeer pid)).log =
          w.log ++ [.peerInfo pid, .findPeer pid] := by simp
      simp only []
      rw [World.since_of_log this]
      simp [hid]
    | false =>
      rw [h₃ hid hi]
      have : (w.emit (.peerInfo pid)).log = w.log ++ [.peerInfo pid] := by simp
      simp only []
      rw [World.since_of_log this]
      simp
  · rw [h₁ hid]
    have : (w.emit (.peerInfo pid)).log = w.log ++ [.peerInfo pid] := by simp
    simp only []
    rw [World.since_of_log this]
    simp [hid]

/-- C9 (amended), at two inputs: `knownNode` has a local entry for `a` and none
for `b`, for which it asks the routing service. -/
theorem getPeerInfo_cases_witness :
    getPeerInfo knownNode exampleWorld "a" =
      ((⟨"a", ["/ip4/10.0.0.2/tcp/4001"]⟩, none), exampleWorld.emit (.peerInfo "a")) ∧
    getPeerInfo knownNode exampleWorld "b" =
      ((⟨"b", ["/ip4/10.0.0.1/tcp/4001"]⟩, none),
        (exampleWorld.emit (.peerInfo "b")).emit (.findPeer "b")) :=
  ⟨(getPeerInfo_cases knownNode exampleWorld "a").1 (by decide),
   (getPeerInfo_cases knownNode exampleWorld "b").2.1 rfl rfl⟩

/-! ## Claims on ClosestConnectedPeers -/

theorem collectConnected_none (ids : List PeerID) :
    ∀ (w : World) (pid : List PeerID) (added : Int),
      (∀ id ∈ ids, w.conns.filter (fun c => c.RemotePeer = id) = []) →
      (collectConnected w pid added ids).1 = (pid, added) ∧
      (collectConnected w pid added ids).2.conns = w.conns := by
  induction ids with
  | nil => intro w pid added _; exact ⟨rfl, rfl⟩
  | cons id ids ih =>
    intro w pid added h
    have h₀ := h id (List.mem_cons_self _ _)
    simp only [collectConnected, h₀, List.length_nil, lt_irrefl, if_false]
    exact ih (w.emit (.connsToPeer id)) pid added (fun q hq => h q (List.mem_cons_of_mem _ hq))

theorem fillFromConns_take (max : Int) (conns : List Conn) :
    ∀ (pid : List PeerID) (added : Int), 0 ≤ added → added < max →
      fillFromConns max pid added conns =
        pid ++ (conns.map Conn.RemotePeer).take (max - added).toNat := by
  induction conns with
  | nil => intro pid added _ _; simp [fillFromConns]
  | cons c cs ih =>
    intro pid added h₀ h₁
    obtain ⟨k, hk⟩ : ∃ k : Nat, (max - added).toNat = k + 1 :=
      ⟨(max - added).toNat - 1, by omega⟩
    by_cases hm : added + 1 = max
    · have : k = 0 := by omega
      subst this
      simp [fillFromConns, hm, hk]
    · have hk' : (max - (added + 1)).toNat = k := by omega
      simp only [fillFromConns, hm, if_false, List.map_cons, hk, List.take_succ_cons]
      rw [ih (pid ++ [c.RemotePeer]) (added + 1) (by omega) (by omega), hk']
      simp

/-- The fallback of `ClosestConnectedPeers` for a positive `max`: online, with no
connection to an identifier of the profile, the result is the remote peers of
the first `max` connections of the host. -/
theorem ClosestConnectedPeers_fallback_pos (n : QriNode) (w : World) (id : ProfileID)
    (max : Int) (honline : n.Online = true) (hmax : 1 ≤ max)
    (hnone : ∀ pid ∈ (n.peerIDs id).1, w.conns.filter (fun c => c.RemotePeer = pid) = []) :
    (ClosestConnectedPeers n w id max).1 = (w.conns.map Conn.RemotePeer).take max.toNat ∧
    ((ClosestConnectedPeers n w id max).1.length : Int) ≤ max := by
  have hres : (ClosestConnectedPeers n w id max).1 =
      (w.conns.map Conn.RemotePeer).take max.toNat := by
    have hfill := fillFromConns_take max w.conns [] 0 (le_refl _) (by omega)
    simp only [sub_zero, List.nil_append] at hfill
    unfold ClosestConnectedPeers
    rcases hp : n.peerIDs id with ⟨ids, _ | e⟩
    · rw [hp] at hnone
      obtain ⟨c₁, c₂⟩ := collectConnected_none ids (w.emit (.peerIDs id)) [] 0 hnone
      rcases hC : collectConnected (w.emit (.peerIDs id)) [] 0 ids with ⟨⟨pid, added⟩, w₁⟩
      rw [hC] at c₁ c₂
      simp only [Prod.mk.injEq] at c₁
      obtain ⟨rfl, rfl⟩ := c₁
      simp only [World.emit_conns] at c₂
      simp [honline, hC, c₂, hfill]
    · simp [honline, hfill]
  refine ⟨hres, ?_⟩
  rw [hres, List.length_take]
  omega

/-- C10 (the code at the failing input): `exampleNode` is online, the profile
`p` has no identifier with an open connection, and `max` is 0; the result has
three identifiers, one per connection of the host. -/
theorem ClosestConnectedPeers_max_zero :
    exampleNode.Online = true ∧
    (∀ pid ∈ (exampleNode.peerIDs "p").1,
      exampleWorld.conns.filter (fun c => c.RemotePeer = pid) = []) ∧
    (ClosestConnectedPeers exampleNode exampleWorld "p" 0).1 = ["a", "b", "z"] := by
  decide

/-! ## More claims on ClosestConnectedPeers -/

theorem collectConnected_filter (ids : List PeerID) :
    ∀ (w : World) (pid : List PeerID) (added : Int),
      (collectConnected w pid added ids).1.1 =
        pid ++ ids.filter (fun id => w.conns.any (fun c => decide (c.RemotePeer = id))) ∧
      (collectConnected w pid added ids).2.conns = w.conns ∧
      (collectConnected w pid added ids).2.log = w.log ++ ids.map Event.connsToPeer := by
  induction ids with
  | nil => intro w pid added; simp [collectConnected]
  | cons id ids ih =>
    intro w pid added
    have hiff : (0 < (w.conns.filter (fun c => decide (c.RemotePeer = id))).length) ↔
        w.conns.any (fun c => decide (c.RemotePeer = id)) = true := by
      rw [List.length_pos, List.any_eq_true]
      constructor
      · intro h
        obtain ⟨c, hc⟩ := List.exists_mem_of_ne_nil _ h
        exact ⟨c, List.mem_of_mem_filter hc, (List.mem_filter.1 hc).2⟩
      · rintro ⟨c, hc, hp⟩
        exact List.ne_nil_of_mem (List.mem_filter.2 ⟨hc, hp⟩)
    unfold collectConnected
    by_cases hc : 0 < (w.conns.filter (fun c => decide (c.RemotePeer = id))).length
    · obtain ⟨h₁, h₂, h₃⟩ := ih (w.emit (.connsToPeer id)) (pid ++ [id]) (added + 1)
      rw [if_pos hc, h₁, h₂, h₃]
      simp [hiff.1 hc]
    · obtain ⟨h₁, h₂, h₃⟩ := ih (w.emit (.connsToPeer id)) pid added
      have hfalse : w.conns.any (fun c => decide (c.RemotePeer = id)) = false := by
        cases h : w.conns.any (fun c => decide (c.RemotePeer = id)) with
        | false => rfl
        | true => exact absurd (hiff.2 h) hc
      rw [if_neg hc, h₁, h₂, h₃]
      simp [hfalse]

/-- C11: when the node is online, the profile store answers `PeerIDs` with `ids`
and no error, and some identifier of `ids` has an open connection,
`ClosestConnectedPeers` returns `ids` filtered by "has an open connection", in
the order of `ids`, whatever `max` is; the calls it makes are the `PeerIDs`
lookup and one `ConnsToPeer` per identifier, and it never lists the connections
of the host. -/
theorem ClosestConnectedPeers_profile_connected (n : QriNode) (w : World) (id : ProfileID)
    (max : Int) (ids : List PeerID)
    (honline : n.Online = true) (hids : n.peerIDs id = (ids, none))
    (hconn : ∃ pid ∈ ids, ∃ c ∈ w.conns, c.RemotePeer = pid) :
    (ClosestConnectedPeers n w id max).1 =
      ids.filter (fun pid => w.conns.any (fun c => decide (c.RemotePeer = pid))) ∧
    (ClosestConnectedPeers n w id max).2.since w =
      Event.peerIDs id :: ids.map Event.connsToPeer := by
  obtain ⟨h₁, _, h₃⟩ := collectConnected_filter ids (w.emit (.peerIDs id)) [] 0
  have hne : ids.filter (fun pid => w.conns.any (fun c => decide (c.RemotePeer = pid))) ≠ [] := by
    obtain ⟨pid, hp, c, hc, hcp⟩ := hconn
    exact List.ne_nil_of_mem (List.mem_filter.2 ⟨hp, List.any_eq_true.2 ⟨c, hc, by simp [hcp]⟩⟩)
  rcases hC : collectConnected (w.emit (.peerIDs id)) [] 0 ids with ⟨⟨pid, added⟩, w₁⟩
  rw [hC] at h₁ h₃
  simp only [List.nil_append, World.emit_conns] at h₁ h₃
  have hlen : ¬ pid.length = 0 := by
    rw [h₁, List.length_eq_zero]; exact hne
  have hres : ClosestConnectedPeers n w id max = (pid, w₁) := by
    simp [ClosestConnectedPeers, honline, hids, hC, hlen]
  rw [hres]
  refine ⟨h₁, World.since_of_log ?_⟩
  simp only []
  rw [h₃]
  simp

/-- C11, at an input: the profile `pa` of `knownNode` has the identifiers `a` and
`b`; in `farWorld` only `b` of them has an open connection. -/
theorem ClosestConnectedPeers_profile_connected_witness :
    (ClosestConnectedPeers knownNode farWorld "pa" 1).1 = ["b"] :=
  (ClosestConnectedPeers_profile_connected knownNode farWorld "pa" 1 ["a", "b"] rfl rfl
    ⟨"b", by decide, ⟨1, "me", "b"⟩, by decide, rfl⟩).1

/-- C12: when the `Online` flag of the node is false, `ClosestConnectedPeers`
returns the empty list for every profile ID and every `max`, and makes no call:
the world, log included, is untouched. -/
theorem ClosestConnectedPeers_offline (n : QriNode) (w : World) (id : ProfileID) (max : Int)
    (hoffline : n.Online = false) :
    ClosestConnectedPeers n w id max = ([], w) ∧
    (ClosestConnectedPeers n w id max).2.since w = [] := by
  have : ClosestConnectedPeers n w id max = ([], w) := by
    simp [ClosestConnectedPeers, hoffline]
  exact ⟨this, by rw [this]; simp [World.since]⟩

/-- C12, at an input: `offlineNode` knows the profile `pa` and the host of
`exampleWorld` has connections, yet the result is empty. -/
theorem ClosestConnectedPeers_offline_witness :
    ClosestConnectedPeers offlineNode exampleWorld "pa" 5 = ([], exampleWorld) :=
  (ClosestConnectedPeers_offline offlineNode exampleWorld "pa" 5 rfl).1

/-! ## The receive loop -/

theorem cons_eq_append_cons {α : Type} {a b : α} {l t s : List α}
    (h : a :: l = t ++ b :: s) (hne : a ≠ b) : ∃ t', t = a :: t' ∧ l = t' ++ b :: s := by
  cases t with
  | nil =>
    simp only [List.nil_append, List.cons.injEq] at h
    exact absurd h.1 hne
  | cons c t' =>
    simp only [List.cons_append, List.cons.injEq] at h
    exact ⟨t', by rw [h.1], h.2⟩

theorem forwardMessage_append_eq {replies : Bool} {x : Message} {tail t s : List StreamEvent}
    {b : StreamEvent} (h : forwardMessage replies x ++ tail = t ++ b :: s)
    (h₁ : ∀ y, b ≠ .reply y) (h₂ : ∀ y, b ≠ .broadcast y) :
    ∃ t', tail = t' ++ b :: s := by
  cases replies with
  | false =>
    simp only [forwardMessage, Bool.false_eq_true, if_false, List.cons_append,
      List.nil_append] at h
    obtain ⟨t', _, ht⟩ := cons_eq_append_cons h (fun e => h₂ x e.symm)
    exact ⟨t', ht⟩
  | true =>
    simp only [forwardMessage, if_true, List.cons_append, List.nil_append] at h
    obtain ⟨t', rfl, ht⟩ := cons_eq_append_cons h (fun e => h₁ x e.symm)
    obtain ⟨t'', _, ht'⟩ := cons_eq_append_cons ht (fun e => h₂ x e.symm)
    exact ⟨t'', ht'⟩

/-- What follows a `received` step is the rest of the iteration that received it. -/
theorem handleStream_after_received {σ : Type} (handlers : MsgType → Option (HandlerFunc σ))
    (replies : Bool) (inbound : List Inbound) :
    ∀ (st : σ) (t₁ t₂ : List StreamEvent) (m : Message),
      handleStream handlers replies st inbound = t₁ ++ .received m :: t₂ →
      ∃ st' rest, StreamEvent.received m :: t₂ =
        handleStream handlers replies st' (.msg m :: rest) := by
  induction inbound with
  | nil =>
    intro st t₁ t₂ m h
    have : StreamEvent.received m ∈ handleStream handlers replies st [] := by rw [h]; simp
    simp [handleStream] at this
  | cons i rest ih =>
    intro st t₁ t₂ m h
    cases i with
    | err e =>
      have : StreamEvent.received m ∈ handleStream handlers replies st (.err e :: rest) := by
        rw [h]; simp
      simp [handleStream] at this
    | msg x =>
      cases t₁ with
      | nil =>
        rw [List.nil_append] at h
        have hx : x = m := by
          simp only [handleStream, List.cons.injEq, StreamEvent.received.injEq] at h
          exact h.1
        subst hx
        exact ⟨st, rest, h.symm⟩
      | cons a t₁' =>
        simp only [handleStream, List.cons_append, List.cons.injEq] at h
        obtain ⟨_, h⟩ := h
        obtain ⟨t', ht⟩ := forwardMessage_append_eq h (by intro y; simp) (by intro y; simp)
        cases hh : handlers x.type with
        | none =>
          rw [hh] at ht
          simp only [] at ht
          have : StreamEvent.received m ∈ [StreamEvent.close] := by rw [ht]; simp
          simp at this
        | some handler =>
          rw [hh] at ht
          simp only [] at ht
          by_cases hb : (handler st x).1 = true
          · rw [if_pos hb] at ht
            have : StreamEvent.received m ∈ [StreamEvent.handle x true, StreamEvent.close] := by
              rw [ht]; simp
            simp at this
          · rw [if_neg hb] at ht
            obtain ⟨t'', _, ht'⟩ := cons_eq_append_cons ht (by simp)
            exact ih _ _ _ _ ht'

/-- What follows a `handle` step: the close when the handler hung up, the next
run of the loop when it did not. -/
theorem handleStream_after_handle {σ : Type} (handlers : MsgType → Option (HandlerFunc σ))
    (replies : Bool) (inbound : List Inbound) :
    ∀ (st : σ) (t₁ t₂ : List StreamEvent) (m : Message) (b : Bool),
      handleStream handlers replies st inbound = t₁ ++ .handle m b :: t₂ →
      handlers m.type ≠ none ∧
      ((b = true ∧ t₂ = [.close]) ∨
       (b = false ∧ ∃ st' rest, t₂ = handleStream handlers replies st' rest)) := by
  induction inbound with
  | nil =>
    intro st t₁ t₂ m b h
    have : StreamEvent.handle m b ∈ handleStream handlers replies st [] := by rw [h]; simp
    simp [handleStream] at this
  | cons i rest ih =>
    intro st t₁ t₂ m b h
    cases i with
    | err e =>
      have : StreamEvent.handle m b ∈ handleStream handlers replies st (.err e :: rest) := by
        rw [h]; simp
      simp [handleStream] at this
    | msg x =>
      simp only [handleStream] at h
      obtain ⟨t', _, h⟩ := cons_eq_append_cons h (by simp)
      obtain ⟨t'', ht⟩ := forwardMessage_append_eq h (by intro y; simp) (by intro y; simp)
      cases hh : handlers x.type with
      | none =>
        rw [hh] at ht
        simp only [] at ht
        have : StreamEvent.handle m b ∈ [StreamEvent.close] := by rw [ht]; simp
        simp at this
      | some handler =>
        rw [hh] at ht
        simp only [] at ht
        by_cases hb : (handler st x).1 = true
        · rw [if_pos hb] at ht
          cases t'' with
          | nil =>
            simp only [List.nil_append, List.cons.injEq, StreamEvent.handle.injEq] at ht
            obtain ⟨⟨rfl, rfl⟩, rfl⟩ := ht
            exact ⟨by simp [hh], Or.inl ⟨rfl, rfl⟩⟩
          | cons a t₃ =>
            simp only [List.cons_append, List.cons.injEq] at ht
            have : StreamEvent.handle m b ∈ [StreamEvent.close] := by rw [ht.2]; simp
            simp at this
        · rw [if_neg hb] at ht
          cases t'' with
          | nil =>
            simp only [List.nil_append, List.cons.injEq, StreamEvent.handle.injEq] at ht
            obtain ⟨⟨rfl, rfl⟩, rfl⟩ := ht
            exact ⟨by simp [hh], Or.inr ⟨rfl, _, _, rfl⟩⟩
          | cons a t₃ =>
            simp only [List.cons_append, List.cons.injEq] at ht
            exact ih _ _ _ _ _ ht.2

theorem handleStream_starts_with_receive {σ : Type}
    (handlers : MsgType → Option (HandlerFunc σ)) (replies : Bool) (st : σ)
    (inbound : List Inbound) :
    ∃ ev rest, handleStream handlers replies st inbound = ev :: rest ∧ ev.isReceive = true := by
  cases inbound with
  | nil => exact ⟨_, _, rfl, rfl⟩
  | cons i rest =>
    cases i with
    | err e => exact ⟨_, _, rfl, rfl⟩
    | msg x => exact ⟨_, _, rfl, rfl⟩

theorem count_close_forwardMessage (replies : Bool) (x : Message) :
    (forwardMessage replies x).count StreamEvent.close = 0 := by
  cases replies <;> simp [forwardMessage]

theorem handleStream_closes_once {σ : Type} (handlers : MsgType → Option (HandlerFunc σ))
    (replies : Bool) (inbound : List Inbound) :
    ∀ st : σ, (handleStream handlers replies st inbound).count StreamEvent.close = 1 ∧
      (handleStream handlers replies st inbound).getLast? = some StreamEvent.close := by
  induction inbound with
  | nil => intro st; simp [handleStream]
  | cons i rest ih =>
    intro st
    cases i with
    | err e => simp [handleStream]
    | msg x =>
      have hf : ∀ tail : List StreamEvent, tail ≠ [] →
          (StreamEvent.received x :: (forwardMessage replies x ++ tail)).getLast? =
            tail.getLast? := by
        intro tail ht
        cases replies <;> cases tail <;> simp [forwardMessage] at ht ⊢
      simp only [handleStream]
      cases hh : handlers x.type with
      | none =>
        refine ⟨?_, ?_⟩
        · simp [List.count_cons, List.count_append, count_close_forwardMessage]
        · rw [hf _ (by simp)]; rfl
      | some handler =>
        simp only []
        by_cases hb : (handler st x).1 = true
        · rw [if_pos hb]
          refine ⟨?_, ?_⟩
          · simp [List.count_cons, List.count_append, count_close_forwardMessage]
          · rw [hf _ (by simp)]; rfl
        · rw [if_neg hb]
          obtain ⟨h₁, h₂⟩ := ih (handler st x).2
          refine ⟨?_, ?_⟩
          · simp [List.count_cons, List.count_append, count_close_forwardMessage, h₁]
          · obtain ⟨ev, tl, hev, _⟩ :=
              handleStream_starts_with_receive handlers replies (handler st x).2 rest
            rw [hf _ (by simp)]
            rw [hev] at h₂ ⊢
            rw [List.getLast?_cons_cons]
            exact h₂

theorem handledMessages_forwardMessage (replies : Bool) (x : Message) (tail : List StreamEvent) :
    handledMessages (forwardMessage replies x ++ tail) = handledMessages tail := by
  cases replies <;> simp [forwardMessage, handledMessages]

/-- The handler invocations of the loop, when every message delivered has a
handler: a prefix of the messages delivered, all of it when no handler hung up,
and with no invocation after a handler that hung up. -/
theorem handleStream_handled {σ : Type} (handlers : MsgType → Option (HandlerFunc σ))
    (replies : Bool) (inbound : List Inbound) :
    ∀ st : σ, (∀ m ∈ inboundMessages inbound, handlers m.type ≠ none) →
      ((handledMessages (handleStream handlers replies st inbound)).map Prod.fst <+:
        inboundMessages inbound) ∧
      (∀ l₁ m l₂, handledMessages (handleStream handlers replies st inbound) =
        l₁ ++ (m, true) :: l₂ → l₂ = []) ∧
      ((handledMessages (handleStream handlers replies st inbound)).map Prod.fst =
          inboundMessages inbound ∨
        ∃ l m, handledMessages (handleStream handlers replies st inbound) = l ++ [(m, true)]) := by
  induction inbound with
  | nil =>
    intro st _
    refine ⟨by simp [handleStream, handledMessages, inboundMessages], ?_,
      Or.inl (by simp [handleStream, handledMessages, inboundMessages])⟩
    intro l₁ m l₂ h
    simp [handleStream, handledMessages] at h
  | cons i rest ih =>
    intro st hk
    cases i with
    | err e =>
      refine ⟨by simp [handleStream, handledMessages, inboundMessages], ?_,
        Or.inl (by simp [handleStream, handledMessages, inboundMessages])⟩
      intro l₁ m l₂ h
      simp [handleStream, handledMessages] at h
    | msg x =>
      have hx : handlers x.type ≠ none := hk x (by simp [inboundMessages])
      have hk' : ∀ m ∈ inboundMessages rest, handlers m.type ≠ none :=
        fun m hm => hk m (by simp [inboundMessages, hm])
      cases hh : handlers x.type with
      | none => exact absurd hh hx
      | some handler =>
        by_cases hb : (handler st x).1 = true
        · have htr : handledMessages (handleStream handlers replies st (.msg x :: rest)) =
              [(x, true)] := by
            simp [handleStream, handledMessages, handledMessages_forwardMessage, hh, hb]
          rw [htr]
          refine ⟨by simp [inboundMessages], ?_, Or.inr ⟨[], x, rfl⟩⟩
          intro l₁ m l₂ h
          cases l₁ with
          | nil =>
            simp only [List.nil_append, List.cons.injEq] at h
            exact h.2.symm
          | cons a l₁' =>
            simp only [List.cons_append, List.cons.injEq] at h
            have := congrArg List.length h.2
            simp at this
            omega
        · have htr : handledMessages (handleStream handlers replies st (.msg x :: rest)) =
              (x, false) ::
                handledMessages (handleStream handlers replies (handler st x).2 rest) := by
            simp [handleStream, handledMessages, handledMessages_forwardMessage, hh, hb]
          obtain ⟨h₁, h₂, h₃⟩ := ih (handler st x).2 hk'
          rw [htr]
          refine ⟨?_, ?_, ?_⟩
          · simp only [List.map_cons, inboundMessages]
            exact (List.prefix_cons_inj x).2 h₁
          · intro l₁ m l₂ h
            cases l₁ with
            | nil =>
              simp only [List.nil_append, List.cons.injEq, Prod.mk.injEq] at h
              exact absurd h.1.2 (by simp)
            | cons a l₁' =>
              simp only [List.cons_append, List.cons.injEq] at h
              exact h₂ l₁' m l₂ h.2
          · rcases h₃ with h₃ | ⟨l, m, h₃⟩
            · exact Or.inl (by simp [inboundMessages, h₃])
            · exact Or.inr ⟨(x, false) :: l, m, by rw [h₃]; rfl⟩

/-! ## Claims on handleStream -/

/-- C13 (the code at the failing input): the first message has `HangUp` set and
its handler returns false; the loop receives and handles the second message
all the same, and closes the stream only when the stream ends. -/
theorem handleStream_ignores_HangUp :
    handleStream pingHandlers false ()
        [.msg ⟨"ping", "1", true⟩, .msg ⟨"ping", "2", false⟩] =
      [.received ⟨"ping", "1", true⟩, .broadcast ⟨"ping", "1", true⟩,
       .handle ⟨"ping", "1", true⟩ false,
       .received ⟨"ping", "2", false⟩, .broadcast ⟨"ping", "2", false⟩,
       .handle ⟨"ping", "2", false⟩ false,
       .receiveFailed "EOF", .close] := by
  decide

/-- C14: for every dispatch table and every stream, once `handleStream` has
received a message whose type is not a key of the table, all it does is pass
the message on and close the stream: no handler is invoked for that message or
for a later one, and nothing more is received.  No handler is ever invoked for
a message whose type is not a key. -/
theorem handleStream_unknown_type {σ : Type} (handlers : MsgType → Option (HandlerFunc σ))
    (replies : Bool) (st : σ) (inbound : List Inbound) (t₁ t₂ : List StreamEvent) (m : Message)
    (hrecv : handleStream handlers replies st inbound = t₁ ++ .received m :: t₂)
    (hunknown : handlers m.type = none) :
    t₂ = forwardMessage replies m ++ [.close] ∧
    ∀ x b, StreamEvent.handle x b ∈ handleStream handlers replies st inbound →
      handlers x.type ≠ none := by
  refine ⟨?_, ?_⟩
  · obtain ⟨st', rest, h⟩ := handleStream_after_received handlers replies inbound st t₁ t₂ m hrecv
    simp only [handleStream, hunknown, List.cons.injEq, true_and] at h
    exact h
  · intro x b hx
    obtain ⟨s₁, s₂, hs⟩ := List.append_of_mem hx
    exact (handleStream_after_handle handlers replies inbound st s₁ s₂ x b hs).1

/-- C14, at an input: a `ping`, then a `pong` that has no handler, then a `ping`
that is never received. -/
theorem handleStream_unknown_type_witness :
    handleStream pingHandlers true ()
        [.msg ⟨"ping", "1", false⟩, .msg ⟨"pong", "2", false⟩, .msg ⟨"ping", "3", false⟩] =
      [.received ⟨"ping", "1", false⟩, .reply ⟨"ping", "1", false⟩,
        .broadcast ⟨"ping", "1", false⟩, .handle ⟨"ping", "1", false⟩ false] ++
        .received ⟨"pong", "2", false⟩ ::
          [.reply ⟨"pong", "2", false⟩, .broadcast ⟨"pong", "2", false⟩, .close] ∧
    [StreamEvent.reply ⟨"pong", "2", false⟩, .broadcast ⟨"pong", "2", false⟩, .close] =
      forwardMessage true ⟨"pong", "2", false⟩ ++ [.close] :=
  ⟨by decide,
   (handleStream_unknown_type pingHandlers true ()
      [.msg ⟨"ping", "1", false⟩, .msg ⟨"pong", "2", false⟩, .msg ⟨"ping", "3", false⟩]
      [.received ⟨"ping", "1", false⟩, .reply ⟨"ping", "1", false⟩,
        .broadcast ⟨"ping", "1", false⟩, .handle ⟨"ping", "1", false⟩ false]
      [.reply ⟨"pong", "2", false⟩, .broadcast ⟨"pong", "2", false⟩, .close]
      ⟨"pong", "2", false⟩ (by decide) (by simp [pingHandlers])).1⟩

/-- C15: for every stream whose delivered messages all have a handler, the
handlers are invoked on a prefix of the delivered messages, in order; no handler
is invoked after one that returned true; and the prefix is the whole of the
delivered messages unless its last handler returned true.  In every run a
handler that returned false is followed by a receive, a handler that returned
true by the close and nothing else, and the stream is closed exactly once, as
the last step. -/
theorem handleStream_hangup_protocol {σ : Type} (handlers : MsgType → Option (HandlerFunc σ))
    (replies : Bool) (st : σ) (inbound : List Inbound)
    (hknown : ∀ m ∈ inboundMessages inbound, handlers m.type ≠ none) :
    ((handledMessages (handleStream handlers replies st inbound)).map Prod.fst <+:
      inboundMessages inbound) ∧
    (∀ l₁ m l₂, handledMessages (handleStream handlers replies st inbound) =
      l₁ ++ (m, true) :: l₂ → l₂ = []) ∧
    ((handledMessages (handleStream handlers replies st inbound)).map Prod.fst =
        inboundMessages inbound ∨
      ∃ l m, handledMessages (handleStream handlers replies st inbound) = l ++ [(m, true)]) ∧
    (∀ t₁ m t₂, handleStream handlers replies st inbound = t₁ ++ .handle m false :: t₂ →
      ∃ ev rest, t₂ = ev :: rest ∧ ev.isReceive = true) ∧
    (∀ t₁ m t₂, handleStream handlers replies st inbound = t₁ ++ .handle m true :: t₂ →
      t₂ = [.close]) ∧
    (handleStream handlers replies st inbound).count StreamEvent.close = 1 ∧
    (handleStream handlers replies st inbound).getLast? = some StreamEvent.close := by
  obtain ⟨h₁, h₂, h₃⟩ := handleStream_handled handlers replies inbound st hknown
  obtain ⟨h₆, h₇⟩ := handleStream_closes_once handlers replies inbound st
  refine ⟨h₁, h₂, h₃, ?_, ?_, h₆, h₇⟩
  · intro t₁ m t₂ h
    rcases (handleStream_after_handle handlers replies inbound st t₁ t₂ m false h).2 with
      ⟨hb, _⟩ | ⟨_, st', rest, ht⟩
    · cases hb
    · rw [ht]
      exact handleStream_starts_with_receive handlers replies st' rest
  · intro t₁ m t₂ h
    rcases (handleStream_after_handle handlers replies inbound st t₁ t₂ m true h).2 with
      ⟨_, ht⟩ | ⟨hb, _⟩
    · exact ht
    · cases hb

/-- C15, at an input: the handler of `countingHandlers` hangs up on the second
message it is given, so the third message is not handled. -/
theorem handleStream_hangup_protocol_witness :
    handledMessages (handleStream countingHandlers false 0
      [.msg ⟨"ping", "1", false⟩, .msg ⟨"ping", "2", false⟩, .msg ⟨"ping", "3", false⟩]) =
      [(⟨"ping", "1", false⟩, false), (⟨"ping", "2", false⟩, true)] ∧
    (handleStream countingHandlers false 0
      [.msg ⟨"ping", "1", false⟩, .msg ⟨"ping", "2", false⟩, .msg ⟨"ping", "3", false⟩]).count
        StreamEvent.close = 1 :=
  ⟨by decide,
   (handleStream_hangup_protocol countingHandlers false 0
      [.msg ⟨"ping", "1", false⟩, .msg ⟨"ping", "2", false⟩, .msg ⟨"ping", "3", false⟩]
      (by
        intro m hm
        simp only [inboundMessages, List.mem_cons, List.mem_nil_iff, or_false] at hm
        rcases hm with rfl | rfl | rfl <;> simp [countingHandlers])).2.2.2.2.2.1⟩

/-! ## Claims on Peers, disconnecting and peerDifference -/

theorem peersLoop_mem (cs : List Conn) :
    ∀ (seen : PeerID → Bool) (peers : List PeerID) (p : PeerID),
      p ∈ peersLoop seen peers cs → p ∈ peers ∨ ∃ c ∈ cs, c.LocalPeer = p := by
  induction cs with
  | nil => intro seen peers p h; exact Or.inl h
  | cons c cs ih =>
    intro seen peers p h
    unfold peersLoop at h
    by_cases hs : seen c.LocalPeer = true
    · rw [if_pos hs] at h
      rcases ih seen peers p h with h' | ⟨c', hc', hp⟩
      · exact Or.inl h'
      · exact Or.inr ⟨c', List.mem_cons_of_mem _ hc', hp⟩
    · rw [if_neg hs] at h
      rcases ih _ _ p h with h' | ⟨c', hc', hp⟩
      · rcases List.mem_append.1 h' with h'' | h''
        · exact Or.inl h''
        · exact Or.inr ⟨c, List.mem_cons_self _ _, (List.mem_singleton.1 h'').symm⟩
      · exact Or.inr ⟨c', List.mem_cons_of_mem _ hc', hp⟩

/-- Every identifier `Peers` returns is the local end of a connection. -/
theorem Peers_mem_local (n : QriNode) (w : World) (p : PeerID) (h : p ∈ (Peers n w).1) :
    ∃ c ∈ w.conns, c.LocalPeer = p := by
  unfold Peers at h
  by_cases hn : n.hostIsNil = true
  · rw [if_pos hn] at h; cases h
  · rw [if_neg hn] at h
    rcases peersLoop_mem w.conns _ _ p h with h' | h'
    · cases h'
    · exact h'

/-- C16 (the code at the failing input): the host of `exampleWorld` has open
connections to `a`, `b` and `z`, all with the local end `me`; `Peers` returns
`me` alone, and none of the connected peers. -/
theorem Peers_returns_local_peer :
    exampleNode.hostIsNil = false ∧
    exampleWorld.conns.map Conn.RemotePeer = ["a", "b", "z"] ∧
    (Peers exampleNode exampleWorld).1 = ["me"] := by
  decide

theorem closeConns_shape (n : QriNode) (cs : List Conn) :
    ∀ w : World, ∃ es, (closeConns n w cs).2.log = w.log ++ es ∧
      (((closeConns n w cs).1 = none ∧
          ∀ x ∈ es, ∀ c, x = Event.connClose c → n.closeErr c = none) ∨
        ∃ c e es', (closeConns n w cs).1 = some e ∧ n.closeErr c = some e ∧
          es = es' ++ [Event.connClose c] ∧
          ∀ x ∈ es', ∀ c', x = Event.connClose c' → n.closeErr c' = none) := by
  induction cs with
  | nil => intro w; exact ⟨[], by simp [closeConns], Or.inl ⟨rfl, by simp⟩⟩
  | cons c cs ih =>
    intro w
    unfold closeConns
    cases hc : n.closeErr c with
    | some e =>
      exact ⟨[.connClose c], by simp, Or.inr ⟨c, e, [], rfl, hc, rfl, by simp⟩⟩
    | none =>
      obtain ⟨es, hl, hs⟩ := ih
        { w.emit (.connClose c) with conns := w.conns.filter (fun x => x ≠ c) }
      have hfirst : ∀ x ∈ [Event.connClose c], ∀ c', x = Event.connClose c' →
          n.closeErr c' = none := by
        intro x hx c' hxc
        rw [List.mem_singleton] at hx
        rw [hx] at hxc
        cases hxc
        exact hc
      refine ⟨.connClose c :: es, by simp only [hl]; simp, ?_⟩
      rcases hs with ⟨h₁, h₂⟩ | ⟨c₀, e, es', h₁, h₂, h₃, h₄⟩
      · refine Or.inl ⟨h₁, ?_⟩
        intro x hx
        rcases List.mem_cons.1 hx with rfl | hx
        · exact hfirst _ (List.mem_singleton_self _)
        · exact h₂ x hx
      · refine Or.inr ⟨c₀, e, .connClose c :: es', h₁, h₂, by rw [h₃]; rfl, ?_⟩
        intro x hx
        rcases List.mem_cons.1 hx with rfl | hx
        · exact hfirst _ (List.mem_singleton_self _)
        · exact h₄ x hx

theorem DisconnectFromPeer_shape (n : QriNode) (w : World) (pid : PeerID) :
    ∃ es, (DisconnectFromPeer n w pid).2.log = w.log ++ es ∧
      (((DisconnectFromPeer n w pid).1 = none ∧
          ∀ x ∈ es, ∀ c, x = Event.connClose c → n.closeErr c = none) ∨
        ∃ c e es', (DisconnectFromPeer n w pid).1 = some e ∧ n.closeErr c = some e ∧
          es = es' ++ [Event.connClose c] ∧
          ∀ x ∈ es', ∀ c', x = Event.connClose c' → n.closeErr c' = none) := by
  obtain ⟨es, hl, hs⟩ := closeConns_shape n (w.conns.filter (fun c => c.RemotePeer = pid))
    (w.emit (.connsToPeer pid))
  have hfirst : ∀ x ∈ [Event.connsToPeer pid], ∀ c', x = Event.connClose c' →
      n.closeErr c' = none := by
    intro x hx c' hxc
    rw [List.mem_singleton] at hx
    rw [hx] at hxc
    cases hxc
  unfold DisconnectFromPeer
  refine ⟨.connsToPeer pid :: es, by rw [hl]; simp, ?_⟩
  rcases hs with ⟨h₁, h₂⟩ | ⟨c₀, e, es', h₁, h₂, h₃, h₄⟩
  · refine Or.inl ⟨h₁, ?_⟩
    intro x hx
    rcases List.mem_cons.1 hx with rfl | hx
    · exact hfirst _ (List.mem_singleton_self _)
    · exact h₂ x hx
  · refine Or.inr ⟨c₀, e, .connsToPeer pid :: es', h₁, h₂, by rw [h₃]; rfl, ?_⟩
    intro x hx
    rcases List.mem_cons.1 hx with rfl | hx
    · exact hfirst _ (List.mem_singleton_self _)
    · exact h₄ x hx

theorem disconnectPeers_shape (n : QriNode) (pids : List PeerID) :
    ∀ w : World, ∃ es, (disconnectPeers n w pids).2.log = w.log ++ es ∧
      (((disconnectPeers n w pids).1 = none ∧
          ∀ x ∈ es, ∀ c, x = Event.connClose c → n.closeErr c = none) ∨
        ∃ c e es', (disconnectPeers n w pids).1 = some e ∧ n.closeErr c = some e ∧
          es = es' ++ [Event.connClose c] ∧
          ∀ x ∈ es', ∀ c', x = Event.connClose c' → n.closeErr c' = none) := by
  induction pids with
  | nil => intro w; exact ⟨[], by simp [disconnectPeers], Or.inl ⟨rfl, by simp⟩⟩
  | cons pid pids ih =>
    intro w
    obtain ⟨es₁, l₁, s₁⟩ := DisconnectFromPeer_shape n w pid
    unfold disconnectPeers
    rcases hD : DisconnectFromPeer n w pid with ⟨_ | e, w₁⟩
    · rw [hD] at l₁ s₁
      simp only [] at l₁ s₁ ⊢
      rcases s₁ with ⟨_, a₁⟩ | ⟨_, _, _, habs, _⟩
      · obtain ⟨es₂, l₂, s₂⟩ := ih w₁
        refine ⟨es₁ ++ es₂, by rw [l₂, l₁]; simp, ?_⟩
        rcases s₂ with ⟨h₁, h₂⟩ | ⟨c₀, e, es', h₁, h₂, h₃, h₄⟩
        · refine Or.inl ⟨h₁, ?_⟩
          intro x hx
          rcases List.mem_append.1 hx with hx | hx
          · exact a₁ x hx
          · exact h₂ x hx
        · refine Or.inr ⟨c₀, e, es₁ ++ es', h₁, h₂, by rw [h₃]; simp, ?_⟩
          intro x hx
          rcases List.mem_append.1 hx with hx | hx
          · exact a₁ x hx
          · exact h₄ x hx
      · cases habs
    · rw [hD] at l₁ s₁
      simp only [] at l₁ s₁ ⊢
      exact ⟨es₁, l₁, s₁⟩

/-- C17 (as stated, refuted): on `flakyNode` closing a connection to `a` fails.
`DisconnectFromProfile` for the identifiers `a` and `b` returns the error
without listing or closing the connection to `b`, which stays open; and
`DisconnectFromPeer` for `a`, which has two connections, never tries the second. -/
theorem DisconnectFromProfile_gives_up_at_failure :
    (DisconnectFromProfile flakyNode exampleWorld exampleProfile).1 = some "close failed" ∧
    (DisconnectFromProfile flakyNode exampleWorld exampleProfile).2.since exampleWorld =
      [Event.connsToPeer "a", Event.connClose ⟨0, "me", "a"⟩] ∧
    (⟨1, "me", "b"⟩ : Conn) ∈
      (DisconnectFromProfile flakyNode exampleWorld exampleProfile).2.conns ∧
    (DisconnectFromPeer flakyNode twinWorld "a").2.since twinWorld =
      [Event.connsToPeer "a", Event.connClose ⟨0, "me", "a"⟩] := by
  decide

/-- C17 (amended): `DisconnectFromProfile` and `DisconnectFromPeer` return the
error of a failing close, and return it at once: when they return an error, the
close that failed with it is the last call they made, and every close before it
succeeded; so the connections after the failing one, of the same peer and
of the remaining peer identifiers of the profile, are not attempted. -/
theorem DisconnectFromProfile_stops_at_failure (n : QriNode) (w : World) (p : Profile)
    (pid : PeerID) :
    (∀ c e, Event.connClose c ∈ (DisconnectFromProfile n w p).2.since w →
      n.closeErr c = some e → (DisconnectFromProfile n w p).1 = some e) ∧
    (∀ e, (DisconnectFromProfile n w p).1 = some e →
      ∃ c es, n.closeErr c = some e ∧
        (DisconnectFromProfile n w p).2.since w = es ++ [Event.connClose c] ∧
        ∀ x ∈ es, ∀ c', x = Event.connClose c' → n.closeErr c' = none) ∧
    (∀ c e, Event.connClose c ∈ (DisconnectFromPeer n w pid).2.since w →
      n.closeErr c = some e → (DisconnectFromPeer n w pid).1 = some e) ∧
    (∀ e, (DisconnectFromPeer n w pid).1 = some e →
      ∃ c es, n.closeErr c = some e ∧
        (DisconnectFromPeer n w pid).2.since w = es ++ [Event.connClose c] ∧
        ∀ x ∈ es, ∀ c', x = Event.connClose c' → n.closeErr c' = none) := by
  have key : ∀ (r : Option GoError × World) (es : List Event), r.2.log = w.log ++ es →
      ((r.1 = none ∧ ∀ x ∈ es, ∀ c, x = Event.connClose c → n.closeErr c = none) ∨
        ∃ c e es', r.1 = some e ∧ n.closeErr c = some e ∧
          es = es' ++ [Event.connClose c] ∧
          ∀ x ∈ es', ∀ c', x = Event.connClose c' → n.closeErr c' = none) →
      (∀ c e, Event.connClose c ∈ r.2.since w → n.closeErr c = some e → r.1 = some e) ∧
      (∀ e, r.1 = some e → ∃ c es, n.closeErr c = some e ∧
        r.2.since w = es ++ [Event.connClose c] ∧
        ∀ x ∈ es, ∀ c', x = Event.connClose c' → n.closeErr c' = none) := by
    intro r es hl hs
    rw [World.since_of_log hl]
    rcases hs with ⟨h₁, h₂⟩ | ⟨c₀, e₀, es', h₁, h₂, h₃, h₄⟩
    · refine ⟨?_, ?_⟩
      · intro c e hc he
        rw [h₂ _ hc c rfl] at he
        cases he
      · intro e he
        rw [h₁] at he
        cases he
    · refine ⟨?_, ?_⟩
      · intro c e hc he
        rw [h₃] at hc
        rcases List.mem_append.1 hc with hc | hc
        · rw [h₄ _ hc c rfl] at he
          cases he
        · rw [List.mem_singleton] at hc
          cases hc
          rw [h₁, ← h₂, he]
      · intro e he
        rw [h₁] at he
        cases he
        exact ⟨c₀, es', h₂, h₃, h₄⟩
  obtain ⟨es₁, l₁, s₁⟩ := disconnectPeers_shape n p.PeerIDs w
  obtain ⟨es₂, l₂, s₂⟩ := DisconnectFromPeer_shape n w pid
  obtain ⟨a₁, a₂⟩ := key (DisconnectFromProfile n w p) es₁ l₁ s₁
  obtain ⟨b₁, b₂⟩ := key (DisconnectFromPeer n w pid) es₂ l₂ s₂
  exact ⟨a₁, a₂, b₁, b₂⟩

/-- C17 (amended), at an input: the failing close of the connection to `a` is the
last call `DisconnectFromProfile` makes. -/
theorem DisconnectFromProfile_stops_at_failure_witness :
    (DisconnectFromProfile flakyNode exampleWorld exampleProfile).1 = some "close failed" :=
  (DisconnectFromProfile_stops_at_failure flakyNode exampleWorld exampleProfile "a").1
    ⟨0, "me", "a"⟩ "close failed" (by decide) rfl

theorem markPeers_isSome (b : List PeerID) :
    ∀ (m : PeerID → Option Bool) (x : PeerID),
      (markPeers m b x).isSome = true ↔ ((m x).isSome = true ∨ x ∈ b) := by
  induction b with
  | nil => intro m x; simp [markPeers]
  | cons bid b ih =>
    intro m x
    unfold markPeers
    rw [ih]
    by_cases hx : x = bid
    · subst hx; simp
    · simp [Function.update_noteq hx, hx]

theorem collectUnmarked_eq (m : PeerID → Option Bool) (a : List PeerID) :
    ∀ diff : List PeerID,
      collectUnmarked m diff a = diff ++ a.filter (fun x => !(m x).isSome) := by
  induction a with
  | nil => intro diff; simp [collectUnmarked]
  | cons aid a ih =>
    intro diff
    unfold collectUnmarked
    by_cases h : (m aid).isSome = true
    · rw [if_pos h, ih, List.filter_cons_of_neg (by simp [h])]
    · rw [if_neg h, ih, List.filter_cons_of_pos (by simpa using h)]
      simp

/-- C18: for all lists `a` and `b` of peer IDs, `peerDifference a b` is `a`
filtered by "does not occur in `b`": the elements of `a` that are not in `b`, in
the order of `a` and with the duplicates of `a`.  So an identifier is in the
result exactly when it is in `a` and not in `b`. -/
theorem peerDifference_eq_filter (a b : List PeerID) :
    peerDifference a b = a.filter (fun x => decide (x ∉ b)) ∧
    ∀ x, x ∈ peerDifference a b ↔ (x ∈ a ∧ x ∉ b) := by
  have h : peerDifference a b = a.filter (fun x => decide (x ∉ b)) := by
    unfold peerDifference
    rw [collectUnmarked_eq, List.nil_append]
    apply List.filter_congr
    intro x _
    have := markPeers_isSome b (fun _ => none) x
    simp only [Option.isSome_none, Bool.false_eq_true, false_or] at this
    by_cases hx : x ∈ b
    · simp [hx, this.2 hx]
    · have hn : (markPeers (fun _ => none) b x).isSome = false := by
        cases hs : (markPeers (fun _ => none) b x).isSome with
        | false => rfl
        | true => exact absurd (this.1 hs) hx
      simp [hx, hn]
  refine ⟨h, fun x => ?_⟩
  rw [h, List.mem_filter]
  simp

/-! ## The disconnect decision of checkReputation -/

/-- C19 (the code at the failing input): `a` is cached at -5 and `b` has no
score; the registry of `generousNode` answers 100, which brings `a` to 95 and
`b` to 101.  `checkReputation` returns with both scores positive and has closed
the connections to `a` and to `b`. -/
theorem checkReputation_disconnects_on_stale_flag :
    (checkReputation generousNode mixedWorld exampleProfile).1 = none ∧
    (checkReputation generousNode mixedWorld exampleProfile).2.scores "a" = some 95 ∧
    (checkReputation generousNode mixedWorld exampleProfile).2.scores "b" = some 101 ∧
    Event.connClose ⟨0, "me", "a"⟩ ∈
      (checkReputation generousNode mixedWorld exampleProfile).2.since mixedWorld ∧
    Event.connClose ⟨1, "me", "b"⟩ ∈
      (checkReputation generousNode mixedWorld exampleProfile).2.since mixedWorld := by
  decide

/-- When no score read by the scan is negative, a check that asks the registry
disconnects only if it leaves the score of some peer identifier of the profile
negative. -/
theorem checkReputation_disconnect_needs_negative (n : QriNode) (w : World) (p : Profile)
    (d : Int)
    (hget : ∀ pid ∈ p.PeerIDs, n.peerstoreGetErr pid = none)
    (htag : ∀ pid ∈ p.PeerIDs, ∀ v, n.tagErr pid v = none)
    (hbase : ∃ pid ∈ p.PeerIDs,
      w.scores pid = none ∨ w.scores pid = some n.qriBaselineReputation)
    (hloc : RegistryLocation n ≠ "")
    (hreg : n.getReputation (RegistryLocation n) p.ID = .ok d)
    (hnonneg : ∀ pid ∈ p.PeerIDs, 0 ≤ (w.scores pid).getD n.qriBaselineReputation)
    (hdisc : ∃ x ∈ (checkReputation n w p).2.since w, x.isDisconnect = true) :
    ∃ pid ∈ p.PeerIDs, ∃ v, (checkReputation n w p).2.scores pid = some v ∧ v < 0 := by
  obtain ⟨q₀, hq₀, hb₀⟩ := hbase
  obtain ⟨w₂, c₁, _, c₃, c₄⟩ := checkReputation_lookup_shape n w p d hget htag
    ⟨q₀, hq₀, (readRep_eq_baseline_iff n w q₀).2 hb₀⟩ hloc hreg
  have hfirst : p.PeerIDs.any (fun q => decide (readRep n w q < 0)) = false := by
    rw [List.any_eq_false]
    intro q hq
    have := hnonneg q hq
    simp only [decide_eq_true_eq, not_lt]
    exact this
  rw [hfirst, Bool.false_or] at c₄
  by_cases hany : p.PeerIDs.any (fun q => decide (addInt (readRep n w q) d < 0)) = true
  · obtain ⟨pid, hp, hlt⟩ := List.any_eq_true.1 hany
    refine ⟨pid, hp, addInt (readRep n w pid) d, ?_, by simpa using hlt⟩
    rw [c₄, if_pos hany]
    simp only []
    rw [DisconnectFromProfile_scores, c₁ pid, if_pos hp]
  · exfalso
    obtain ⟨es₁, l₁, k₁⟩ := scanReputations_log n p.PeerIDs w ⟨[], false, true⟩
    obtain ⟨x, hx, hxd⟩ := hdisc
    rw [c₄, if_neg hany] at hx
    have hlog : w₂.log = w.log ++ (es₁ ++ Event.getReputation (RegistryLocation n) p.ID ::
        p.PeerIDs.map (fun q => Event.tagReputation q (addInt (readRep n w q) d))) := by
      rw [c₃, l₁]; simp
    simp only [] at hx
    rw [World.since_of_log hlog] at hx
    rcases List.mem_append.1 hx with hx | hx
    · have := k₁ x hx
      cases x <;> simp_all [Event.isScore, Event.isDisconnect]
    · rcases List.mem_cons.1 hx with rfl | hx
      · simp [Event.isDisconnect] at hxd
      · obtain ⟨q, _, rfl⟩ := List.mem_map.1 hx
        simp [Event.isDisconnect] at hxd

end P2P
end Qri
